import Mathlib

/-! Streaming chat renderer of `main.js`.

A shallow embedding of the streaming path of `src/web/static/js/main.js`:
the SSE frame splitter and payload dispatcher inside `streamChat`
(`processBuffer`, `handlePayload`, `updateThinking`, `getLastLines`), the
read loop with its streaming text decoder, the session bookkeeping around
`activeStreamController` / `setLoading`, and `handleStreamingSubmit`.

JavaScript strings are sequences of UTF-16 code units; they are modelled as
lists of natural numbers.  The two browser built-ins the code calls,
`JSON.parse` and `TextDecoder`, are not part of the repository: `JSON.parse`
is a parameter `parse` of every definition that needs it (with a concrete
reader `jsonParse` for evaluation), and the decoder is the byte-by-byte UTF-8
decoder of the Encoding Standard.
-/

namespace OllamaChat

/-! ## Strings -/

/-- A JavaScript string: its UTF-16 code units. -/
abbrev Str := List Nat

/-- UTF-16 code units of one Unicode scalar value. -/
def u16Char (c : Char) : Str :=
  if c.toNat < 0x10000 then [c.toNat]
  else [0xD800 + (c.toNat - 0x10000) / 0x400, 0xDC00 + (c.toNat - 0x10000) % 0x400]

/-- Code units of a string literal. -/
def u16 (s : String) : Str :=
  s.toList.foldr (fun c acc => u16Char c ++ acc) []

/-- The code units that `trim` and `trimStart` remove: ECMAScript WhiteSpace and
LineTerminator. -/
def isWhitespace (c : Nat) : Bool :=
  c == 0x09 || c == 0x0A || c == 0x0B || c == 0x0C || c == 0x0D || c == 0x20
    || c == 0xA0 || c == 0x1680 || (0x2000 ≤ c && c ≤ 0x200A)
    || c == 0x2028 || c == 0x2029 || c == 0x202F || c == 0x205F
    || c == 0x3000 || c == 0xFEFF

/-- Model of `String.prototype.trimStart`. -/
def trimStart (s : Str) : Str := s.dropWhile isWhitespace

/-- Model of `String.prototype.trimEnd`. -/
def trimEnd (s : Str) : Str := (s.reverse.dropWhile isWhitespace).reverse

/-- Model of `String.prototype.trim`. -/
def trim (s : Str) : Str := trimEnd (trimStart s)

/-- Model of `String.prototype.startsWith`. -/
def startsWith : Str → Str → Bool
  | _, [] => true
  | [], _ :: _ => false
  | c :: s, d :: p => c == d && startsWith s p

/-- Prepends a code unit to the first piece of a split. -/
def consHead (c : Nat) : List Str → List Str
  | [] => [[c]]
  | p :: ps => (c :: p) :: ps

/-- Model of `s.split('\n\n')`: leftmost, non-overlapping occurrences of two line
feeds separate the pieces; the result always has at least one piece. -/
def splitBlank : Str → List Str
  | [] => [[]]
  | [c] => [[c]]
  | c :: d :: rest =>
    if c = 10 ∧ d = 10 then [] :: splitBlank rest
    else consHead c (splitBlank (d :: rest))

/-- Model of `s.split('\n')`. -/
def splitNewline : Str → List Str
  | [] => [[]]
  | c :: rest =>
    if c = 10 then [] :: splitNewline rest
    else consHead c (splitNewline rest)

/-- Model of `s.split(/\r?\n/)`: at each position the pattern matches a carriage
return followed by a line feed, or a line feed alone. -/
def splitLines : Str → List Str
  | [] => [[]]
  | [c] => if c = 10 then [[], []] else [[c]]
  | c :: d :: rest =>
    if c = 13 ∧ d = 10 then [] :: splitLines rest
    else if c = 10 then [] :: splitLines (d :: rest)
    else consHead c (splitLines (d :: rest))

/-- Model of `Array.prototype.join` on an array of strings. -/
def join (sep : Str) : List Str → Str
  | [] => []
  | [x] => x
  | x :: y :: rest => x ++ sep ++ join sep (y :: rest)

/-- Source lines 195-199, `getLastLines(text, lineCount)`. -/
def getLastLines (text : Str) (lineCount : Nat) : Str :=
  if text = [] then []
  else
    let lines := splitLines text
    join [10] (lines.drop (lines.length - lineCount))

/-! ## JavaScript values produced by `JSON.parse` -/

/-- Values that `JSON.parse` can return, plus `undefined` (the result of reading a
missing property).  Numbers are kept abstract in `N`. -/
inductive JVal (N : Type) where
  | undefined : JVal N
  | null : JVal N
  | bool (b : Bool) : JVal N
  | num (n : N) : JVal N
  | str (s : Str) : JVal N
  | arr (items : List (JVal N)) : JVal N
  | obj (members : List (Str × JVal N)) : JVal N

/-- The operations on Number values the program can reach: conversion of a JSON
numeric literal, addition, the constants used by `ToNumber`, falsiness
(zero or NaN) and `ToString`. -/
structure NumOps (N : Type) where
  ofLiteral : Str → N
  add : N → N → N
  zero : N
  one : N
  nan : N
  isFalsy : N → Bool
  toStr : N → Str

/-- A stand-in for the Number type, used only to evaluate the program on sample
streams without numbers: integers, exact on integer literals, with zero in the
place of NaN. -/
def intOps : NumOps Int where
  ofLiteral := fun lit =>
    match lit with
    | 45 :: ds => - Int.ofNat (ds.foldl (fun acc d => 10 * acc + (d - 48)) 0)
    | ds => Int.ofNat (ds.foldl (fun acc d => 10 * acc + (d - 48)) 0)
  add := fun a b => a + b
  zero := 0
  one := 1
  nan := 0
  isFalsy := fun n => n == 0
  toStr := fun n => u16 (toString n)

namespace JVal

variable {N : Type}

/-- ECMAScript `ToBoolean`. -/
def truthy (ops : NumOps N) : JVal N → Bool
  | undefined => false
  | null => false
  | bool b => b
  | num n => !ops.isFalsy n
  | str s => !s.isEmpty
  | arr _ => true
  | obj _ => true

/-- The last member with key `k`: `JSON.parse` lets a later duplicate overwrite
an earlier one. -/
def lookup (k : Str) : List (Str × JVal N) → Option (JVal N)
  | [] => none
  | (k', v) :: rest =>
    match lookup k rest with
    | some w => some w
    | none => if k' = k then some v else none

/-- Reading the property `type` or `content` (`k` is one of these two names in
the program): `none` stands for the `TypeError` thrown on `null` and
`undefined`; primitives and arrays have no such property. -/
def getProp (v : JVal N) (k : Str) : Option (JVal N) :=
  match v with
  | undefined => none
  | null => none
  | obj members => some ((lookup k members).getD undefined)
  | _ => some undefined

/-- Strict equality `v === s` with a string literal. -/
def isStr (v : JVal N) (s : Str) : Bool :=
  match v with
  | str t => t == s
  | _ => false

mutual
/-- ECMAScript `ToString`; `none` stands for the `TypeError` it throws.  An array is
converted as by `join(',')`.  A plain object gives `[object Object]`, unless it has
an own member named `toString`: that member is not callable, `valueOf` returns the
object itself, and the conversion throws. -/
def toStr (ops : NumOps N) : JVal N → Option Str
  | undefined => some (u16 "undefined")
  | null => some (u16 "null")
  | bool b => some (if b then u16 "true" else u16 "false")
  | num n => some (ops.toStr n)
  | str s => some s
  | arr items => joinItems ops items
  | obj members =>
    if (lookup (u16 "toString") members).isSome then none
    else some (u16 "[object Object]")
termination_by structural v => v
/-- Array `join(',')`: the first item, then the others each after a comma; `null`
and `undefined` items give the empty string. -/
def joinItems (ops : NumOps N) : List (JVal N) → Option Str
  | [] => some []
  | x :: rest =>
    match (match x with
      | undefined => some []
      | null => some []
      | v => toStr ops v), joinTail ops rest with
    | some a, some b => some (a ++ b)
    | _, _ => none
termination_by structural items => items
/-- The items after the first one, each preceded by a comma. -/
def joinTail (ops : NumOps N) : List (JVal N) → Option Str
  | [] => some []
  | x :: rest =>
    match (match x with
      | undefined => some []
      | null => some []
      | v => toStr ops v), joinTail ops rest with
    | some a, some b => some ([44] ++ a ++ b)
    | _, _ => none
termination_by structural items => items
end

/-- ECMAScript `ToPrimitive` on the values of this model: arrays and plain objects
become their string form, or throw as `toStr` does. -/
def toPrimitive (ops : NumOps N) : JVal N → Option (JVal N)
  | arr items => (toStr ops (arr items)).map str
  | obj members => (toStr ops (obj members)).map str
  | v => some v

/-- ECMAScript `ToNumber`, called by `add` on primitives that are not strings. -/
def toNumber (ops : NumOps N) : JVal N → N
  | null => ops.zero
  | bool b => if b then ops.one else ops.zero
  | num n => n
  | _ => ops.nan

/-- The operator `a + b` on two primitives: string concatenation as soon as one of
them is a string, numeric addition otherwise. -/
def addPrimitives (ops : NumOps N) (pa pb : JVal N) : Option (JVal N) :=
  match pa, pb with
  | str s, _ => (toStr ops pb).map (fun t => str (s ++ t))
  | _, str t => (toStr ops pa).map (fun s => str (s ++ t))
  | _, _ => some (num (ops.add (toNumber ops pa) (toNumber ops pb)))

/-- The operator `a + b`: both operands are converted with `ToPrimitive`, the left
one first; `none` stands for a `TypeError` thrown by a conversion. -/
def add (ops : NumOps N) (a b : JVal N) : Option (JVal N) :=
  match toPrimitive ops a with
  | none => none
  | some pa =>
    match toPrimitive ops b with
    | none => none
    | some pb => addPrimitives ops pa pb

/-- The operator `a || b`. -/
def or (ops : NumOps N) (a b : JVal N) : JVal N :=
  if truthy ops a then a else b

/-- The string a DOM `textContent` setter stores: `null` and `undefined` clear the
text, every other value is converted with `ToString`, which may throw. -/
def domString (ops : NumOps N) : JVal N → Option Str
  | undefined => some []
  | null => some []
  | v => toStr ops v

end JVal

/-! ## One streaming session: the closures of `streamChat` -/

/-- Errors a step can throw. -/
inductive JsError where
  | syntaxError : JsError
  | typeError : JsError
  | abortError : JsError
  | other (message : Str) : JsError
  deriving DecidableEq

/-- The local variables of one `streamChat` call and the part of its assistant
bubble the streaming code writes.  The last three fields are ghost traces: the
arguments of every `handlePayload` call, the arguments of every `JSON.parse`
call, and the number of `console.warn` calls. -/
structure Sess (N : Type) where
  responseText : JVal N
  thinkingText : Str
  bubbleText : Str
  bubbleStreaming : Bool
  bubbleError : Bool
  thinkingHidden : Bool
  thinkingLive : Bool
  thinkingLabel : Str
  thinkingPreview : Bool
  thinkingContent : Str
  handled : List (JVal N)
  parsed : List Str
  warnings : Nat

variable {N : Type}

/-- State after `createAssistantMessage()` and source lines 213-217: empty texts,
hidden thinking panel, bubble marked as streaming. -/
def Sess.init : Sess N where
  responseText := .str []
  thinkingText := []
  bubbleText := []
  bubbleStreaming := true
  bubbleError := false
  thinkingHidden := true
  thinkingLive := true
  thinkingLabel := u16 "思考中"
  thinkingPreview := false
  thinkingContent := []
  handled := []
  parsed := []
  warnings := 0

/-- Source lines 222-225, `updateResponse`; `none` when the assignment to
`textContent` throws, which leaves the bubble as it was. -/
def updateResponse (ops : NumOps N) (s : Sess N) : Option (Sess N) :=
  (s.responseText.domString ops).map (fun text => { s with bubbleText := text })

/-- Source lines 227-235, `updateThinking`. -/
def updateThinking (s : Sess N) : Sess N :=
  if s.thinkingText = [] then s
  else
    { s with
      thinkingHidden := false
      thinkingLive := true
      thinkingLabel := u16 "思考中"
      thinkingPreview := true
      thinkingContent := getLastLines s.thinkingText 3 }

/-- Source lines 237-249, `finalize`. -/
def finalize (s : Sess N) : Sess N :=
  let s := { s with bubbleStreaming := false }
  if s.thinkingText = [] then { s with thinkingHidden := true }
  else
    { s with
      thinkingLive := false
      thinkingLabel := u16 "思考過程を表示"
      thinkingPreview := false
      thinkingContent := s.thinkingText }

/-- The state after `updateResponse()` and the error it threw, if any. -/
def andUpdateResponse (ops : NumOps N) (s : Sess N) : Sess N × Option JsError :=
  match updateResponse ops s with
  | some s' => (s', none)
  | none => (s, some .typeError)

/-- Source lines 251-265, `handlePayload`: the state when the call returns or throws,
and the error thrown, if any (a `TypeError` of a string conversion; a throwing
`+=` assigns nothing).  `thinkingText` starts as the empty string and is only ever
extended with `+=`, so it stays a string and `+=` appends the `ToString` of the
right operand. -/
def handlePayload (ops : NumOps N) (s : Sess N) (payload : JVal N) :
    Sess N × Option JsError :=
  let s := { s with handled := s.handled ++ [payload] }
  if !payload.truthy ops then (s, none)
  else
    let ty := (payload.getProp (u16 "type")).getD .undefined
    if !ty.truthy ops then (s, none)
    else
      let content := (payload.getProp (u16 "content")).getD .undefined
      if ty.isStr (u16 "thinking") then
        match (content.or ops (.str [])).toStr ops with
        | none => (s, some .typeError)
        | some text => (updateThinking { s with thinkingText := s.thinkingText ++ text }, none)
      else if ty.isStr (u16 "response") then
        match s.responseText.add ops (content.or ops (.str [])) with
        | none => (s, some .typeError)
        | some sum => andUpdateResponse ops { s with responseText := sum }
      else if ty.isStr (u16 "error") then
        andUpdateResponse ops
          { s with
            responseText := content.or ops (.str (u16 "エラーが発生しました。"))
            bubbleError := true }
      else (s, none)

/-- Source lines 272-274: the lines of a frame that start with `data:`. -/
def dataLines (eventChunk : Str) : List Str :=
  (splitNewline eventChunk).filter (fun line => startsWith line (u16 "data:"))

/-- Source lines 278-280: `line.slice(5).trimStart()` on every data line, joined
with a line feed. -/
def dataTextOf (lines : List Str) : Str :=
  join [10] (lines.map (fun line => trimStart (line.drop 5)))

/-- Source lines 285-289, the body of the `try` block: the state when the block is
left and the error thrown, if any.  `JSON.parse` may throw a `SyntaxError`, reading
`.type` of `null` throws a `TypeError`, and `handlePayload` may throw. -/
def tryDispatch (parse : Str → Option (JVal N)) (ops : NumOps N) (s : Sess N)
    (dataText : Str) : Sess N × Option JsError :=
  match parse dataText with
  | none => (s, some .syntaxError)
  | some payload =>
    match payload.getProp (u16 "type") with
    | none => (s, some .typeError)
    | some ty =>
      if ty.isStr (u16 "done") then (s, none)
      else handlePayload ops s payload

/-- Source lines 290-292, the `catch` block: an error thrown in the `try` block is
logged as a warning, and the callback returns normally. -/
def catchWarn (r : Sess N × Option JsError) : Sess N :=
  match r.2 with
  | none => r.1
  | some _ => { r.1 with warnings := r.1.warnings + 1 }

/-- Source lines 271-293, the callback of `events.forEach`. -/
def processEvent (parse : Str → Option (JVal N)) (ops : NumOps N) (s : Sess N)
    (eventChunk : Str) : Except JsError (Sess N) :=
  let lines := dataLines eventChunk
  if lines = [] then .ok s
  else
    let dataText := dataTextOf lines
    if dataText = [] then .ok s
    else
      let s := { s with parsed := s.parsed ++ [dataText] }
      .ok (catchWarn (tryDispatch parse ops s dataText))

/-- The loop of `events.forEach`: frames in order; an error thrown by the callback
would end the loop. -/
def processEvents (parse : Str → Option (JVal N)) (ops : NumOps N) :
    Sess N → List Str → Except JsError (Sess N)
  | s, [] => .ok s
  | s, eventChunk :: rest =>
    match processEvent parse ops s eventChunk with
    | .ok s' => processEvents parse ops s' rest
    | .error e => .error e

/-- Source lines 267-296, `processBuffer`: returns the session state after the
complete frames and the remainder (`events.pop() || ''`). -/
def processBuffer (parse : Str → Option (JVal N)) (ops : NumOps N) (s : Sess N)
    (buffer : Str) : Except JsError (Sess N × Str) :=
  let events := splitBlank buffer
  let remainder := events.getLast?.getD []
  match processEvents parse ops s events.dropLast with
  | .ok s' => .ok (s', remainder)
  | .error e => .error e

/-! ## The streaming text decoder -/

/-- State of the UTF-8 decoder of the Encoding Standard, with the flag that makes a
`TextDecoder` drop one leading byte order mark. -/
structure Utf8State where
  codePoint : Nat
  bytesSeen : Nat
  bytesNeeded : Nat
  lower : Nat
  upper : Nat
  bomSeen : Bool
  deriving DecidableEq

/-- A fresh `new TextDecoder('utf-8')`. -/
def Utf8State.init : Utf8State :=
  { codePoint := 0, bytesSeen := 0, bytesNeeded := 0, lower := 0x80, upper := 0xBF,
    bomSeen := false }

/-- UTF-16 code units of a code point. -/
def encodeUtf16 (cp : Nat) : Str :=
  if cp < 0x10000 then [cp]
  else [0xD800 + (cp - 0x10000) / 0x400, 0xDC00 + (cp - 0x10000) % 0x400]

/-- Output of one decoded code point: the first code point of the stream is
dropped when it is U+FEFF. -/
def emit (st : Utf8State) (cp : Nat) : Utf8State × Str :=
  if st.bomSeen then (st, encodeUtf16 cp)
  else ({ st with bomSeen := true }, if cp = 0xFEFF then [] else encodeUtf16 cp)

/-- The decoder on a byte when no sequence is open (`bytesNeeded = 0`). -/
def utf8Lead (st : Utf8State) (b : Nat) : Utf8State × Str :=
  if b ≤ 0x7F then emit st b
  else if 0xC2 ≤ b ∧ b ≤ 0xDF then
    ({ st with bytesNeeded := 1, codePoint := b % 0x20 }, [])
  else if 0xE0 ≤ b ∧ b ≤ 0xEF then
    ({ st with
       lower := if b = 0xE0 then 0xA0 else st.lower
       upper := if b = 0xED then 0x9F else st.upper
       bytesNeeded := 2
       codePoint := b % 0x10 }, [])
  else if 0xF0 ≤ b ∧ b ≤ 0xF4 then
    ({ st with
       lower := if b = 0xF0 then 0x90 else st.lower
       upper := if b = 0xF4 then 0x8F else st.upper
       bytesNeeded := 3
       codePoint := b % 0x08 }, [])
  else emit st 0xFFFD

/-- The decoder on one byte.  A byte that cannot continue the open sequence ends it
with U+FFFD and is then read again as a lead byte. -/
def utf8Step (st : Utf8State) (b : Nat) : Utf8State × Str :=
  if st.bytesNeeded = 0 then utf8Lead st b
  else if b < st.lower ∨ st.upper < b then
    let st0 := { st with codePoint := 0, bytesNeeded := 0, bytesSeen := 0,
                         lower := 0x80, upper := 0xBF }
    let r1 := emit st0 0xFFFD
    let r2 := utf8Lead r1.1 b
    (r2.1, r1.2 ++ r2.2)
  else
    let cp := st.codePoint * 0x40 + b % 0x40
    if st.bytesSeen + 1 ≠ st.bytesNeeded then
      ({ st with lower := 0x80, upper := 0xBF, codePoint := cp,
                 bytesSeen := st.bytesSeen + 1 }, [])
    else
      emit { st with codePoint := 0, bytesNeeded := 0, bytesSeen := 0,
                     lower := 0x80, upper := 0xBF } cp

/-- Model of `decoder.decode(value, { stream: true })`: the bytes of one chunk, in
order; an unfinished sequence stays in the state for the next call. -/
def decode : Utf8State → List Nat → Utf8State × Str
  | st, [] => (st, [])
  | st, b :: bs =>
    let r1 := utf8Step st b
    let r2 := decode r1.1 bs
    (r2.1, r1.2 ++ r2.2)

/-! ## The read loop -/

/-- The variables of the read loop: the decoder, the carry `buffer`, and the
session. -/
structure LoopState (N : Type) where
  decoder : Utf8State
  buffer : Str
  sess : Sess N

/-- State on entry to the read loop (source lines 309-311). -/
def LoopState.init (s : Sess N) : LoopState N :=
  { decoder := Utf8State.init, buffer := [], sess := s }

/-- Source lines 313-318, the read loop over the chunks `reader.read()` delivers
before it reports `done`. -/
def readLoop (parse : Str → Option (JVal N)) (ops : NumOps N) :
    LoopState N → List (List Nat) → Except JsError (LoopState N)
  | ls, [] => .ok ls
  | ls, value :: rest =>
    let r := decode ls.decoder value
    match processBuffer parse ops ls.sess (ls.buffer ++ r.2) with
    | .ok (sess, remainder) =>
      readLoop parse ops { decoder := r.1, buffer := remainder, sess := sess } rest
    | .error e => .error e

/-- Source lines 320-322, the step after the loop: the result of the second
`processBuffer` call is discarded. -/
def flushCarry (parse : Str → Option (JVal N)) (ops : NumOps N) (ls : LoopState N) :
    Except JsError (Sess N) :=
  if trim ls.buffer ≠ [] then
    match processBuffer parse ops ls.sess ls.buffer with
    | .ok (sess, _) => .ok sess
    | .error e => .error e
  else .ok ls.sess

/-- Source lines 309-322: read loop, then the end-of-stream step. -/
def readStream (parse : Str → Option (JVal N)) (ops : NumOps N) (s : Sess N)
    (chunks : List (List Nat)) : Except JsError (Sess N) :=
  match readLoop parse ops (LoopState.init s) chunks with
  | .ok ls => flushCarry parse ops ls
  | .error e => .error e

/-! ## A reader for JSON texts

`JSON.parse` is a browser built-in.  The definitions above take it as the
parameter `parse`; `jsonParse` follows the JSON grammar (ECMA-404) and serves to
evaluate the program on concrete streams. -/

/-- JSON insignificant whitespace: space, tab, line feed, carriage return. -/
def isJsonWs (c : Nat) : Bool := c == 0x20 || c == 0x09 || c == 0x0A || c == 0x0D

/-- Skips JSON whitespace. -/
def skipWs (s : Str) : Str := s.dropWhile isJsonWs

/-- Decimal digit. -/
def isDigit (c : Nat) : Bool := 48 ≤ c && c ≤ 57

/-- Value of a hexadecimal digit. -/
def hexVal (c : Nat) : Option Nat :=
  if 48 ≤ c ∧ c ≤ 57 then some (c - 48)
  else if 97 ≤ c ∧ c ≤ 102 then some (c - 87)
  else if 65 ≤ c ∧ c ≤ 70 then some (c - 55)
  else none

/-- The code unit of a two-character escape. -/
def escapeChar (e : Nat) : Option Nat :=
  if e = 34 then some 34
  else if e = 92 then some 92
  else if e = 47 then some 47
  else if e = 98 then some 8
  else if e = 102 then some 12
  else if e = 110 then some 10
  else if e = 114 then some 13
  else if e = 116 then some 9
  else none

/-- Reads a string body after its opening quote: the decoded string and the rest
of the input after the closing quote. -/
def parseString : Nat → Str → Option (Str × Str)
  | 0, _ => none
  | _, [] => none
  | fuel + 1, c :: rest =>
    if c = 34 then some ([], rest)
    else if c = 92 then
      match rest with
      | [] => none
      | e :: r =>
        if e = 117 then
          match r with
          | h1 :: h2 :: h3 :: h4 :: r4 =>
            match hexVal h1, hexVal h2, hexVal h3, hexVal h4 with
            | some a, some b, some c3, some d =>
              (parseString fuel r4).map
                (fun p => ((a * 4096 + b * 256 + c3 * 16 + d) :: p.1, p.2))
            | _, _, _, _ => none
          | _ => none
        else
          match escapeChar e with
          | some u => (parseString fuel r).map (fun p => (u :: p.1, p.2))
          | none => none
    else if c < 0x20 then none
    else (parseString fuel rest).map (fun p => (c :: p.1, p.2))

/-- Reads a JSON number: its literal text and the rest of the input. -/
def parseNumber (s : Str) : Option (Str × Str) :=
  let sign : Str := if s.head? = some 45 then [45] else []
  let s1 := if s.head? = some 45 then s.drop 1 else s
  match s1 with
  | [] => none
  | d :: r =>
    if !isDigit d then none
    else
      let intDigits : Str := if d = 48 then [] else r.takeWhile isDigit
      let s2 := if d = 48 then r else r.dropWhile isDigit
      let fracOk : Bool := s2.head? != some 46 || ((s2.drop 1).head?.map isDigit == some true)
      let frac : Str := if s2.head? = some 46 then 46 :: (s2.drop 1).takeWhile isDigit else []
      let s3 := if s2.head? = some 46 then (s2.drop 1).dropWhile isDigit else s2
      let hasExp : Bool := s3.head? == some 101 || s3.head? == some 69
      let s4 := if hasExp then s3.drop 1 else s3
      let hasSign : Bool := hasExp && (s4.head? == some 43 || s4.head? == some 45)
      let s5 := if hasSign then s4.drop 1 else s4
      let expOk : Bool := !hasExp || (s5.head?.map isDigit == some true)
      let exp : Str :=
        if hasExp then s3.take 1 ++ (if hasSign then s4.take 1 else []) ++ s5.takeWhile isDigit
        else []
      let s6 := if hasExp then s5.dropWhile isDigit else s3
      if fracOk && expOk then some (sign ++ d :: intDigits ++ frac ++ exp, s6) else none

mutual
/-- Reads one JSON value after optional whitespace. -/
def parseValue (ops : NumOps N) : Nat → Str → Option (JVal N × Str)
  | 0, _ => none
  | fuel + 1, s =>
    match skipWs s with
    | [] => none
    | c :: rest =>
      if c = 123 then
        match skipWs rest with
        | [] => none
        | d :: r =>
          if d = 125 then some (.obj [], r)
          else (parseMembers ops fuel (d :: r)).map (fun p => (.obj p.1, p.2))
      else if c = 91 then
        match skipWs rest with
        | [] => none
        | d :: r =>
          if d = 93 then some (.arr [], r)
          else (parseItems ops fuel (d :: r)).map (fun p => (.arr p.1, p.2))
      else if c = 34 then
        (parseString (rest.length + 1) rest).map (fun p => (.str p.1, p.2))
      else if startsWith (c :: rest) (u16 "true") then some (.bool true, rest.drop 3)
      else if startsWith (c :: rest) (u16 "false") then some (.bool false, rest.drop 4)
      else if startsWith (c :: rest) (u16 "null") then some (.null, rest.drop 3)
      else (parseNumber (c :: rest)).map (fun p => (.num (ops.ofLiteral p.1), p.2))
termination_by structural fuel => fuel
/-- Reads the members of an object up to and including the closing brace. -/
def parseMembers (ops : NumOps N) : Nat → Str → Option (List (Str × JVal N) × Str)
  | 0, _ => none
  | fuel + 1, s =>
    match skipWs s with
    | [] => none
    | q :: r =>
      if q ≠ 34 then none
      else
        match parseString (r.length + 1) r with
        | none => none
        | some (key, r1) =>
          match skipWs r1 with
          | [] => none
          | colon :: r2 =>
            if colon ≠ 58 then none
            else
              match parseValue ops fuel r2 with
              | none => none
              | some (v, r3) =>
                match skipWs r3 with
                | [] => none
                | sep :: r4 =>
                  if sep = 125 then some ([(key, v)], r4)
                  else if sep = 44 then
                    (parseMembers ops fuel r4).map (fun p => ((key, v) :: p.1, p.2))
                  else none
termination_by structural fuel => fuel
/-- Reads the items of an array up to and including the closing bracket. -/
def parseItems (ops : NumOps N) : Nat → Str → Option (List (JVal N) × Str)
  | 0, _ => none
  | fuel + 1, s =>
    match parseValue ops fuel s with
    | none => none
    | some (v, r1) =>
      match skipWs r1 with
      | [] => none
      | sep :: r2 =>
        if sep = 93 then some ([v], r2)
        else if sep = 44 then (parseItems ops fuel r2).map (fun p => (v :: p.1, p.2))
        else none
termination_by structural fuel => fuel
end

/-- Reader for a whole JSON text: one value between optional whitespace; `none`
stands for the `SyntaxError` of `JSON.parse`.  Every recursive call consumes
input, so the fuel `2 * length + 2` is never exhausted. -/
def jsonParse (ops : NumOps N) (s : Str) : Option (JVal N) :=
  match parseValue ops (2 * s.length + 2) s with
  | none => none
  | some (v, rest) => if skipWs rest = [] then some v else none

/-! ## Sessions and the form -/

/-- The request body: the `user_input` field and the file entries the form
contributes. -/
structure FormData where
  user_input : Str
  files : List Str
  deriving DecidableEq

/-- An entry of the chat container. -/
inductive ChatItem where
  | user (message : Str) (imageUrls : List Str) : ChatItem
  | assistant (session : Nat) : ChatItem
  deriving DecidableEq

/-- The module-level state and the part of the form the streaming path touches.
`AbortController` objects are numbered in order of creation.  `aborted` is the
trace of `abort()` calls, `running` the sessions whose `finally` block has not
run yet, `requests` the trace of `fetch` calls. -/
structure Ui where
  activeStreamController : Option Nat
  isLoading : Bool
  inputDisabled : Bool
  submitLabel : Str
  controllers : Nat
  aborted : List Nat
  running : List Nat
  chat : List ChatItem
  requests : List (Nat × FormData)
  deriving DecidableEq

/-- State when the script has loaded (source lines 11-13). -/
def Ui.init : Ui where
  activeStreamController := none
  isLoading := false
  inputDisabled := false
  submitLabel := u16 "送信"
  controllers := 0
  aborted := []
  running := []
  chat := []
  requests := []

/-- Source lines 62-76, `setLoading`. -/
def setLoading (isLoading : Bool) (ui : Ui) : Ui :=
  { ui with
    isLoading := isLoading
    inputDisabled := isLoading
    submitLabel := if isLoading then u16 "停止" else u16 "送信" }

/-- Source lines 202-204: abort the controller of the session in flight. -/
def abortActive (ui : Ui) : Ui :=
  match ui.activeStreamController with
  | some c => { ui with aborted := ui.aborted ++ [c] }
  | none => ui

/-- Source lines 219-220: create a controller and make it the active one. -/
def installController (ui : Ui) : Ui :=
  { ui with
    controllers := ui.controllers + 1
    activeStreamController := some ui.controllers }

/-- Source lines 201-303, the synchronous part of `streamChat` up to the `fetch`
call: abort the previous controller, add the assistant bubble, `setLoading(true)`,
install a new controller, send the request. -/
def streamChatStart (formData : FormData) (ui : Ui) : Ui :=
  let ui := abortActive ui
  let ui := { ui with chat := ui.chat ++ [ChatItem.assistant ui.controllers] }
  let ui := setLoading true ui
  let c := ui.controllers
  let ui := installController ui
  { ui with requests := ui.requests ++ [(c, formData)], running := ui.running ++ [c] }

/-- Source lines 331-337, the `finally` block of the session with controller `c`. -/
def streamChatFinally (c : Nat) (ui : Ui) : Ui :=
  let ui := setLoading false ui
  let ui :=
    if ui.activeStreamController = some c then { ui with activeStreamController := none }
    else ui
  { ui with running := ui.running.erase c }

/-- Source lines 370-380, the click handler of the submit button: the new state
and whether the default action (submitting the form) was prevented. -/
def submitClick (ui : Ui) : Ui × Bool :=
  if !ui.isLoading then (ui, false)
  else (abortActive ui, true)

/-- The file input element, when the page has one; `files` is `null` on an element
that is not a file input. -/
structure ImageInput where
  files : Option (List Str)
  deriving DecidableEq

/-- Source line 347, `hasImages`. -/
def hasImages (imageInput : Option ImageInput) : Bool :=
  match imageInput with
  | none => false
  | some el =>
    match el.files with
    | none => false
    | some files => decide (0 < files.length)

/-- Source lines 86-94, `appendUserMessage`. -/
def appendUserMessage (message : Str) (imageUrls : List Str) (ui : Ui) : Ui :=
  { ui with chat := ui.chat ++ [ChatItem.user message imageUrls] }

/-- Source lines 340-364, `handleStreamingSubmit` (`USE_STREAMING` is the constant
`true`): `inputValue` is `input.value`, `previewUrls` the result of
`getPreviewSources()`, and `form` the entries `new FormData(form)` collects from the
page, on which line 361 sets `user_input`.  The deferred reset of the input and
`clearImages()` only touch the input elements, which are arguments here. -/
def handleStreamingSubmit (inputValue : Str) (imageInput : Option ImageInput)
    (previewUrls : List Str) (form : FormData) (ui : Ui) : Ui :=
  let message := trim inputValue
  if message = [] ∧ hasImages imageInput = false then ui
  else
    let ui := appendUserMessage message previewUrls ui
    let formData : FormData := { form with user_input := message }
    streamChatStart formData ui

/-- States reachable from the initial one by starting a session, by the
completion of a session that is still running, and by a click on the submit
button. -/
inductive Reachable : Ui → Prop where
  | init : Reachable Ui.init
  | start (formData : FormData) {ui : Ui} : Reachable ui →
      Reachable (streamChatStart formData ui)
  | complete (c : Nat) {ui : Ui} : Reachable ui → c ∈ ui.running →
      Reachable (streamChatFinally c ui)
  | click {ui : Ui} : Reachable ui → Reachable (submitClick ui).1

/-! ## Vocabulary of the statements -/

/-- Session state after the `forEach` callback has run on one frame. -/
def afterEvent (parse : Str → Option (JVal N)) (ops : NumOps N) (s : Sess N)
    (eventChunk : Str) : Sess N :=
  match processEvent parse ops s eventChunk with
  | .ok s' => s'
  | .error _ => s

/-- Session state after the callback has run on a list of frames, in order. -/
def afterEvents (parse : Str → Option (JVal N)) (ops : NumOps N) (s : Sess N)
    (events : List Str) : Sess N :=
  events.foldl (afterEvent parse ops) s

/-- The complete frames of a buffer: every piece of `buffer.split('\n\n')` but the
last. -/
def completeFrames (buffer : Str) : List Str := (splitBlank buffer).dropLast

/-- The carry of a buffer: the last piece of `buffer.split('\n\n')`. -/
def carryOf (buffer : Str) : Str := (splitBlank buffer).getLast?.getD []

/-- The text the callback extracts from a frame (source lines 272-280). -/
def payloadText (eventChunk : Str) : Str := dataTextOf (dataLines eventChunk)

/-- Everything a session holds except the ghost traces of `JSON.parse` calls and of
warnings: the two text variables, the state of the bubble and of the thinking
panel, and the trace of `handlePayload` calls. -/
def Sess.view (s : Sess N) :
    JVal N × Str × Str × Bool × Bool × Bool × Bool × Str × Bool × Str × List (JVal N) :=
  (s.responseText, s.thinkingText, s.bubbleText, s.bubbleStreaming, s.bubbleError,
    s.thinkingHidden, s.thinkingLive, s.thinkingLabel, s.thinkingPreview,
    s.thinkingContent, s.handled)

/-- Concatenation of a list of strings. -/
def concat : List Str → Str
  | [] => []
  | x :: rest => x ++ concat rest

/-- Spec wording (section 4.2): a data line with the marker `data:` and exactly one
following space removed. -/
def stripMarkerOneSpace (line : Str) : Str :=
  match line.drop 5 with
  | 32 :: rest => rest
  | rest => rest

/-- Spec wording (section 4.2): the lines of the frame that begin with `data:`, each
with the marker and exactly one following space removed, joined with a line feed. -/
def specPayloadText (frame : Str) : Str :=
  join [10] (((splitNewline frame).filter (fun line => startsWith line (u16 "data:"))).map
    stripMarkerOneSpace)

/-- The data lines of a frame, each with the marker and all the whitespace that
follows it removed, joined with a line feed. -/
def trimmedPayloadText (frame : Str) : Str :=
  join [10] (((splitNewline frame).filter (fun line => startsWith line (u16 "data:"))).map
    (fun line => (line.drop 5).dropWhile isWhitespace))

/-- A payload of type `thinking` with string content. -/
def thinkingPayload (content : Str) : JVal N :=
  .obj [(u16 "type", .str (u16 "thinking")), (u16 "content", .str content)]

/-- The session after `handlePayload` has handled, one after the other, thinking
payloads with the given contents, starting from a fresh session. -/
def afterThinking (ops : NumOps N) (contents : List Str) : Sess N :=
  contents.foldl (fun t c => (handlePayload ops t (thinkingPayload c)).1) Sess.init

/-- The bookkeeping facts that hold in every reachable state: the active handle is
`null` or the controller created last; running sessions carry distinct controllers
created earlier; a running session that is not the active one has had `abort()`
called on its controller; the active controller belongs to a running session. -/
def SessionInv (ui : Ui) : Prop :=
  (ui.activeStreamController = none ∨
    (0 < ui.controllers ∧ ui.activeStreamController = some (ui.controllers - 1))) ∧
  (∀ c ∈ ui.running, c < ui.controllers) ∧
  (∀ c ∈ ui.running, ui.activeStreamController = some c ∨ c ∈ ui.aborted) ∧
  (∀ c, ui.activeStreamController = some c → c ∈ ui.running) ∧
  ui.running.Nodup

/-- State after session A was started, session B was started while A was still
running, and the `finally` block of A (controller 0) has run. -/
def supersededThenCompleted : Ui :=
  streamChatFinally 0
    (streamChatStart { user_input := u16 "b", files := [] }
      (streamChatStart { user_input := u16 "a", files := [] } Ui.init))

/-- UTF-8 bytes of one Unicode scalar value. -/
def utf8Char (c : Char) : List Nat :=
  if c.toNat < 0x80 then [c.toNat]
  else if c.toNat < 0x800 then [0xC0 + c.toNat / 0x40, 0x80 + c.toNat % 0x40]
  else if c.toNat < 0x10000 then
    [0xE0 + c.toNat / 0x1000, 0x80 + c.toNat / 0x40 % 0x40, 0x80 + c.toNat % 0x40]
  else
    [0xF0 + c.toNat / 0x40000, 0x80 + c.toNat / 0x1000 % 0x40,
      0x80 + c.toNat / 0x40 % 0x40, 0x80 + c.toNat % 0x40]

/-- UTF-8 bytes of a string literal. -/
def utf8 (s : String) : List Nat :=
  s.toList.foldr (fun c acc => utf8Char c ++ acc) []

/-- A frame as it stands before its terminating blank line: no two consecutive line
feeds inside, and no line feed at the end (the terminator `\n\n` is then the first
blank line after the start of the frame). -/
def isFrameText : Str → Bool
  | [] => true
  | [c] => c != 10
  | c :: d :: rest => !(c == 10 && d == 10) && isFrameText (d :: rest)

/-- The stream made of the given frames, each terminated by a blank line. -/
def streamText : List Str → Str
  | [] => []
  | frame :: rest => frame ++ [10, 10] ++ streamText rest

/-- Whether a payload is an object whose `type` is the given string. -/
def typeIs (payload : JVal N) (ty : Str) : Bool :=
  match payload with
  | .obj members => ((JVal.lookup (u16 "type") members).getD .undefined).isStr ty
  | _ => false

/-- The `content` of a payload when it is an object with a string `content`. -/
def contentStr (payload : JVal N) : Option Str :=
  match payload with
  | .obj members =>
    match JVal.lookup (u16 "content") members with
    | some (.str c) => some c
    | _ => none
  | _ => none

/-- A payload of type `done`, or of type `thinking` or `response` with string
content. -/
def isStreamPayload (payload : JVal N) : Bool :=
  typeIs payload (u16 "done") ||
    ((typeIs payload (u16 "thinking") || typeIs payload (u16 "response")) &&
      (contentStr payload).isSome)

/-- The content of a payload of type `response`, the empty string for another
payload. -/
def responseContent (payload : JVal N) : Str :=
  if typeIs payload (u16 "response") then (contentStr payload).getD [] else []

/-- Concatenation, in order, of the contents of the `response` payloads. -/
def responseContents : List (JVal N) → Str
  | [] => []
  | payload :: rest => responseContent payload ++ responseContents rest

/-- The frame carries the payload: its data text is not empty and the JSON parser
reads it as this payload. -/
def Carries (parse : Str → Option (JVal N)) (frame : Str) (payload : JVal N) : Prop :=
  payloadText frame ≠ [] ∧ parse (payloadText frame) = some payload

/-- The image attachments of a submission: the files selected in the file input;
none when the page has no file input or the element has no file list. -/
def attachedFiles : Option ImageInput → List Str
  | some { files := some files } => files
  | _ => []

/-- One line of a frame on the wire: a data line, made of the marker `data:`, a run
of whitespace `pad` and the fragment, or any other line (a comment, another field).
The wire format of the spec, `data: <json-fragment>`, is the data line whose `pad` is
one space. -/
inductive FrameLine where
  | data (pad fragment : Str) : FrameLine
  | other (text : Str) : FrameLine
  deriving DecidableEq

/-- The text of a line. -/
def FrameLine.text : FrameLine → Str
  | .data pad fragment => u16 "data:" ++ pad ++ fragment
  | .other text => text

/-- The fragment a line contributes to the payload: that of a data line. -/
def FrameLine.fragment? : FrameLine → Option Str
  | .data _ fragment => some fragment
  | .other _ => none

/-- A line as a frame can hold it: no line feed inside; in a data line `pad` is
whitespace and the fragment starts where the whitespace ends; another line is not
empty (an empty line would end the frame) and does not begin with `data:`. -/
def FrameLine.wellFormed : FrameLine → Bool
  | .data pad fragment =>
    pad.all isWhitespace && decide (10 ∉ pad) && decide (10 ∉ fragment) &&
      decide (fragment.head?.map isWhitespace ≠ some true)
  | .other text =>
    decide (text ≠ []) && decide (10 ∉ text) && !startsWith text (u16 "data:")

/-- The text of a frame: its lines separated by line feeds. -/
def frameText (lines : List FrameLine) : Str :=
  join [10] (lines.map FrameLine.text)

/-- The payload string a frame carries: the fragments of its data lines, in order,
joined by line feeds. -/
def carriedText (lines : List FrameLine) : Str :=
  join [10] (lines.filterMap FrameLine.fragment?)

/-! ### Sample frames -/

/-- The frame `data: {"type":"response","content":"a"}`. -/
def frameResponseA : Str := u16 "data: \x7b\"type\":\"response\",\"content\":\"a\"\x7d"

/-- The frame `data: {"type":"response","content":"b"}`. -/
def frameResponseB : Str := u16 "data: \x7b\"type\":\"response\",\"content\":\"b\"\x7d"

/-- The frame `data: {"type":"done"}`. -/
def frameDone : Str := u16 "data: \x7b\"type\":\"done\"\x7d"

/-- The frame `data: {"type":"response","content":"hi"}`. -/
def frameResponseHi : Str := u16 "data: \x7b\"type\":\"response\",\"content\":\"hi\"\x7d"

/-- The frame `data: {"type":"response","content":"x"}`. -/
def frameResponseX : Str := u16 "data: \x7b\"type\":\"response\",\"content\":\"x\"\x7d"

/-- The frame `data: {"type":"error","content":"boom"}`. -/
def frameErrorBoom : Str := u16 "data: \x7b\"type\":\"error\",\"content\":\"boom\"\x7d"

/-- A payload object with the given `type` and string `content`. -/
def payloadOf (ty content : String) : JVal N :=
  .obj [(u16 "type", .str (u16 ty)), (u16 "content", .str (u16 content))]

/-- A frame with a comment line and one data line carrying a thinking payload. -/
def sampleFrameThinking : List FrameLine :=
  [.other (u16 ": ping"),
    .data (u16 " ") (u16 "\x7b\"type\":\"thinking\",\"content\":\"hm\"\x7d")]

/-- A frame whose response payload is spread over two data lines, the second one
indented, with another field between them. -/
def sampleFrameResponse : List FrameLine :=
  [.data (u16 " ") (u16 "\x7b\"type\":\"response\","),
    .other (u16 "id: 7"),
    .data (u16 "  ") (u16 "\"content\":\"hé\"\x7d")]

/-- A frame whose data line has no space after the marker, carrying `done`. -/
def sampleFrameDone : List FrameLine :=
  [.data [] (u16 "\x7b\"type\":\"done\"\x7d")]

/-- Three chunks of the byte stream of the three sample frames: the first cut falls
between the two bytes of `é`, the second between the two line feeds of a frame
delimiter. -/
def sampleChunks : List (List Nat) :=
  [utf8 ": ping\ndata: \x7b\"type\":\"thinking\",\"content\":\"hm\"\x7d\n\ndata: \x7b\"type\":\"response\",\nid: 7\ndata:  \"content\":\"h"
      ++ [0xC3],
    [0xA9] ++ utf8 "\"\x7d\n",
    utf8 "\ndata:\x7b\"type\":\"done\"\x7d\n\n"]

/-- A comment frame without any `data:` line. -/
def framePing : Str := u16 ": ping"

/-! ## Theorems -/

section Lemmas

variable (parse : Str → Option (JVal N)) (ops : NumOps N)

theorem processEvent_eq_ok (s : Sess N) (e : Str) :
    processEvent parse ops s e = .ok (afterEvent parse ops s e) := by
  have h : ∃ s', processEvent parse ops s e = .ok s' := by
    unfold processEvent
    by_cases h1 : dataLines e = []
    · simp [h1]
    · by_cases h2 : dataTextOf (dataLines e) = []
      · simp [h1, h2]
      · simp [h1, h2]
  obtain ⟨s', hs'⟩ := h
  simp [afterEvent, hs']

theorem processEvents_eq_ok (s : Sess N) (es : List Str) :
    processEvents parse ops s es = .ok (afterEvents parse ops s es) := by
  induction es generalizing s with
  | nil => rfl
  | cons e es ih =>
    simp only [processEvents, processEvent_eq_ok, afterEvents, List.foldl_cons]
    exact ih _

theorem processBuffer_eq_ok (s : Sess N) (buffer : Str) :
    processBuffer parse ops s buffer =
      .ok (afterEvents parse ops s (completeFrames buffer), carryOf buffer) := by
  simp [processBuffer, processEvents_eq_ok, completeFrames, carryOf]

theorem afterEvents_append (s : Sess N) (es fs : List Str) :
    afterEvents parse ops s (es ++ fs) =
      afterEvents parse ops (afterEvents parse ops s es) fs := by
  simp [afterEvents, List.foldl_append]

theorem afterEvents_cons (s : Sess N) (e : Str) (es : List Str) :
    afterEvents parse ops s (e :: es) =
      afterEvents parse ops (afterEvent parse ops s e) es := rfl

theorem afterEvent_eq (s : Sess N) (e : Str) :
    afterEvent parse ops s e =
      if payloadText e = [] then s
      else
        catchWarn (tryDispatch parse ops { s with parsed := s.parsed ++ [payloadText e] }
          (payloadText e)) := by
  unfold afterEvent processEvent payloadText
  by_cases h1 : dataLines e = []
  · simp [h1, dataTextOf, join]
  · by_cases h2 : dataTextOf (dataLines e) = []
    · simp [h1, h2]
    · simp [h1, h2]

theorem catchWarn_view (r : Sess N × Option JsError) : (catchWarn r).view = r.1.view := by
  obtain ⟨s, e⟩ := r
  cases e <;> rfl

theorem catchWarn_parsed (r : Sess N × Option JsError) :
    (catchWarn r).parsed = r.1.parsed := by
  obtain ⟨s, e⟩ := r
  cases e <;> rfl

theorem andUpdateResponse_ghost (s : Sess N) (p : List Str) (w : Nat) :
    andUpdateResponse ops { s with parsed := p, warnings := w } =
      ({ (andUpdateResponse ops s).1 with parsed := p, warnings := w },
        (andUpdateResponse ops s).2) := by
  unfold andUpdateResponse updateResponse
  rcases hd : JVal.domString ops s.responseText with _ | text <;> simp [hd]

theorem handlePayload_ghost (s : Sess N) (p : List Str) (w : Nat) (payload : JVal N) :
    handlePayload ops { s with parsed := p, warnings := w } payload =
      ({ (handlePayload ops s payload).1 with parsed := p, warnings := w },
        (handlePayload ops s payload).2) := by
  unfold handlePayload
  simp only []
  split_ifs
  · rfl
  · rfl
  · rcases ht : (((payload.getProp (u16 "content")).getD .undefined).or ops (.str [])).toStr ops
      with _ | text
    · rfl
    · simp only [updateThinking]
      split_ifs <;> rfl
  · rcases hadd : s.responseText.add ops
        (((payload.getProp (u16 "content")).getD .undefined).or ops (.str [])) with _ | sum
    · rfl
    · exact andUpdateResponse_ghost ops
        { s with handled := s.handled ++ [payload], responseText := sum } p w
  · exact andUpdateResponse_ghost ops
      { s with
        handled := s.handled ++ [payload]
        responseText := ((payload.getProp (u16 "content")).getD .undefined).or ops
          (.str (u16 "エラーが発生しました。"))
        bubbleError := true } p w
  · rfl

theorem tryDispatch_ghost (s : Sess N) (p : List Str) (w : Nat) (dataText : Str) :
    tryDispatch parse ops { s with parsed := p, warnings := w } dataText =
      ({ (tryDispatch parse ops s dataText).1 with parsed := p, warnings := w },
        (tryDispatch parse ops s dataText).2) := by
  cases hp : parse dataText with
  | none => simp [tryDispatch, hp]
  | some payload =>
    cases ht : payload.getProp (u16 "type") with
    | none => simp [tryDispatch, hp, ht]
    | some ty =>
      by_cases hd : ty.isStr (u16 "done") = true
      · simp [tryDispatch, hp, ht, hd]
      · simp [tryDispatch, hp, ht, hd, handlePayload_ghost]

theorem eq_ghost_of_view (s t : Sess N) (h : s.view = t.view) :
    s = { t with parsed := s.parsed, warnings := s.warnings } := by
  cases s; cases t
  simp only [Sess.view, Prod.mk.injEq] at h
  simp only [Sess.mk.injEq]
  tauto

theorem afterEvent_view (s t : Sess N) (e : Str) (h : s.view = t.view) :
    (afterEvent parse ops s e).view = (afterEvent parse ops t e).view := by
  rw [eq_ghost_of_view s t h]
  simp only [afterEvent_eq]
  by_cases h1 : payloadText e = []
  · simp only [h1, if_true]; rfl
  · simp only [h1, if_false, catchWarn_view]
    have := tryDispatch_ghost parse ops { t with parsed := t.parsed ++ [payloadText e] }
      (s.parsed ++ [payloadText e]) s.warnings (payloadText e)
    simp only at this
    rw [this]
    rfl

theorem afterEvents_view (s t : Sess N) (es : List Str) (h : s.view = t.view) :
    (afterEvents parse ops s es).view = (afterEvents parse ops t es).view := by
  induction es generalizing s t with
  | nil => exact h
  | cons e es ih =>
    simp only [afterEvents_cons]
    exact ih _ _ (afterEvent_view parse ops s t e h)

theorem payloadText_nil_of_dataLines (e : Str) (h : dataLines e = []) :
    payloadText e = [] := by
  simp [payloadText, h, dataTextOf, join]

theorem afterEvent_view_of_bad (s : Sess N) (f : Str)
    (hbad : dataLines f = [] ∨ parse (payloadText f) = none) :
    (afterEvent parse ops s f).view = s.view := by
  rw [afterEvent_eq]
  by_cases h1 : payloadText f = []
  · simp [h1]
  · rcases hbad with h | h
    · exact absurd (payloadText_nil_of_dataLines f h) h1
    · simp only [h1, if_false, catchWarn_view, tryDispatch, h]
      rfl

theorem afterEvent_view_of_done (s : Sess N) (f : Str) (members : List (Str × JVal N))
    (hparse : parse (payloadText f) = some (.obj members))
    (hdone : JVal.lookup (u16 "type") members = some (.str (u16 "done"))) :
    (afterEvent parse ops s f).view = s.view := by
  rw [afterEvent_eq]
  by_cases h1 : payloadText f = []
  · simp [h1]
  · have hd : (u16 "done" == u16 "done") = true := by decide
    simp only [h1, if_false, catchWarn_view, tryDispatch, hparse, JVal.getProp, hdone,
      Option.getD_some, JVal.isStr, hd, if_true]
    rfl

theorem skipped_frame (s : Sess N) (buffer : Str) (pre post : List Str) (f : Str)
    (hframes : completeFrames buffer = pre ++ f :: post)
    (hskip : ∀ t : Sess N, (afterEvent parse ops t f).view = t.view) :
    ∃ before after final final',
      processEvents parse ops s pre = .ok before ∧
      processEvent parse ops before f = .ok after ∧
      after.view = before.view ∧
      processBuffer parse ops s buffer = .ok (final, carryOf buffer) ∧
      processEvents parse ops s (pre ++ post) = .ok final' ∧
      final.view = final'.view := by
  refine ⟨afterEvents parse ops s pre, afterEvent parse ops (afterEvents parse ops s pre) f,
    afterEvents parse ops s (pre ++ f :: post), afterEvents parse ops s (pre ++ post),
    processEvents_eq_ok parse ops s pre, processEvent_eq_ok parse ops _ f, hskip _, ?_,
    processEvents_eq_ok parse ops s _, ?_⟩
  · rw [processBuffer_eq_ok, hframes]
  · rw [afterEvents_append, afterEvents_append, afterEvents_cons]
    exact afterEvents_view parse ops _ _ post (hskip _)

end Lemmas

/-- C7: a frame of a buffer that has no `data:` line, or whose joined data text is
rejected by the JSON parser, is skipped: `processBuffer` returns normally (no error
escapes it), the frame leaves the session as it found it (no `handlePayload` call,
same response and thinking text, same bubble), and the final state is the one the
other complete frames alone produce.  (`view` is the whole session state except the
traces of `JSON.parse` calls and of warnings.) -/
theorem bad_frame_skipped (parse : Str → Option (JVal N)) (ops : NumOps N) (s : Sess N)
    (buffer : Str) (pre post : List Str) (f : Str)
    (hframes : completeFrames buffer = pre ++ f :: post)
    (hbad : dataLines f = [] ∨ parse (payloadText f) = none) :
    ∃ before after final final',
      processEvents parse ops s pre = .ok before ∧
      processEvent parse ops before f = .ok after ∧
      after.view = before.view ∧
      processBuffer parse ops s buffer = .ok (final, carryOf buffer) ∧
      processEvents parse ops s (pre ++ post) = .ok final' ∧
      final.view = final'.view :=
  skipped_frame parse ops s buffer pre post f hframes
    (fun t => afterEvent_view_of_bad parse ops t f hbad)

/-- C8: a complete frame of a buffer whose payload parses to an object with `type`
equal to `done` (whatever its other members) is dropped before the dispatch: the
frame leaves the session as it found it, in particular the trace of `handlePayload`
calls, the response text and the thinking text, and the buffer ends in the state
the other complete frames alone produce. -/
theorem done_payload_not_dispatched (parse : Str → Option (JVal N)) (ops : NumOps N)
    (s : Sess N) (buffer : Str) (pre post : List Str) (f : Str)
    (members : List (Str × JVal N))
    (hframes : completeFrames buffer = pre ++ f :: post)
    (hparse : parse (payloadText f) = some (.obj members))
    (hdone : JVal.lookup (u16 "type") members = some (.str (u16 "done"))) :
    ∃ before after final final',
      processEvents parse ops s pre = .ok before ∧
      processEvent parse ops before f = .ok after ∧
      after.view = before.view ∧
      processBuffer parse ops s buffer = .ok (final, carryOf buffer) ∧
      processEvents parse ops s (pre ++ post) = .ok final' ∧
      final.view = final'.view :=
  skipped_frame parse ops s buffer pre post f hframes
    (fun t => afterEvent_view_of_done parse ops t f members hparse hdone)

section Lemmas

variable (ops : NumOps N)

theorem tryDispatch_parsed (parse : Str → Option (JVal N)) (s : Sess N) (dataText : Str) :
    (tryDispatch parse ops s dataText).1.parsed = s.parsed := by
  have h := tryDispatch_ghost parse ops s s.parsed s.warnings dataText
  have h2 := congrArg (fun r => r.1.parsed) h
  exact h2

theorem afterEvent_parsed (parse : Str → Option (JVal N)) (s : Sess N) (f : Str) :
    (afterEvent parse ops s f).parsed =
      s.parsed ++ (if payloadText f = [] then [] else [payloadText f]) := by
  rw [afterEvent_eq]
  by_cases h1 : payloadText f = []
  · simp [h1]
  · simp only [h1, if_false, catchWarn_parsed, tryDispatch_parsed]

end Lemmas

/-- C6 (as stated, refuted): on the frame `data:  {}` (two spaces after the marker)
the string handed to the JSON parser is `{}`, while removing the marker and exactly
one space gives ` {}`. -/
theorem one_space_strip_counterexample :
    ∃ s' : Sess Int,
      processEvent (jsonParse intOps) intOps Sess.init (u16 "data:  \x7b\x7d") = .ok s' ∧
      s'.parsed = [u16 "\x7b\x7d"] ∧
      specPayloadText (u16 "data:  \x7b\x7d") = u16 " \x7b\x7d" ∧
      s'.parsed ≠ [specPayloadText (u16 "data:  \x7b\x7d")] :=
  ⟨afterEvent (jsonParse intOps) intOps Sess.init (u16 "data:  \x7b\x7d"),
    processEvent_eq_ok _ _ _ _, by decide, by decide, by decide⟩

/-- C6 (amended): for every frame, the callback hands to the JSON parser at most one
string, namely the lines of the frame that begin with `data:`, each with the marker
and all the whitespace that follows it removed, joined with a line feed; the parser
is called exactly when that text is not empty.  The text is the one the spec words
(marker and one space removed) whenever every data line has exactly one space after
the marker, followed by no further whitespace. -/
theorem parser_input_is_trimmed_data (parse : Str → Option (JVal N)) (ops : NumOps N)
    (s : Sess N) (f : Str) :
    (∃ s', processEvent parse ops s f = .ok s' ∧
      s'.parsed =
        s.parsed ++ (if trimmedPayloadText f = [] then [] else [trimmedPayloadText f])) ∧
    ((∀ line ∈ dataLines f, ∃ rest, line.drop 5 = 32 :: rest ∧
        rest.head?.map isWhitespace ≠ some true) →
      trimmedPayloadText f = specPayloadText f) := by
  refine ⟨⟨_, processEvent_eq_ok parse ops s f, afterEvent_parsed ops parse s f⟩, ?_⟩
  intro h
  unfold trimmedPayloadText specPayloadText
  congr 1
  apply List.map_congr_left
  intro line hline
  obtain ⟨rest, hrest, hws⟩ := h line hline
  simp only [stripMarkerOneSpace, hrest]
  cases rest with
  | nil => rfl
  | cons c rest =>
    have hc : isWhitespace c = false := by
      cases hcw : isWhitespace c with
      | false => rfl
      | true => simp [hcw] at hws
    have h32 : isWhitespace 32 = true := by decide
    simp [List.dropWhile, hc, h32]

/-- Witness of `parser_input_is_trimmed_data`: the frame `data: {}`. -/
theorem parser_input_is_trimmed_data_witness :
    (∃ s' : Sess Int,
      processEvent (jsonParse intOps) intOps Sess.init (u16 "data: \x7b\x7d") = .ok s' ∧
      s'.parsed = (Sess.init : Sess Int).parsed ++
        (if trimmedPayloadText (u16 "data: \x7b\x7d") = [] then []
         else [trimmedPayloadText (u16 "data: \x7b\x7d")])) ∧
    ((∀ line ∈ dataLines (u16 "data: \x7b\x7d"), ∃ rest, line.drop 5 = 32 :: rest ∧
        rest.head?.map isWhitespace ≠ some true) →
      trimmedPayloadText (u16 "data: \x7b\x7d") = specPayloadText (u16 "data: \x7b\x7d")) :=
  parser_input_is_trimmed_data (jsonParse intOps) intOps Sess.init (u16 "data: \x7b\x7d")

/-- Witness of `bad_frame_skipped`: a comment frame between two response frames. -/
theorem bad_frame_skipped_witness :
    completeFrames (frameResponseA ++ [10, 10] ++ framePing ++ [10, 10] ++ frameResponseB
        ++ [10, 10]) = [frameResponseA] ++ framePing :: [frameResponseB] ∧
    dataLines framePing = [] ∧
    ∃ before after final final' : Sess Int,
      processEvents (jsonParse intOps) intOps Sess.init [frameResponseA] = .ok before ∧
      processEvent (jsonParse intOps) intOps before framePing = .ok after ∧
      after.view = before.view ∧
      processBuffer (jsonParse intOps) intOps Sess.init
        (frameResponseA ++ [10, 10] ++ framePing ++ [10, 10] ++ frameResponseB ++ [10, 10])
        = .ok (final, carryOf (frameResponseA ++ [10, 10] ++ framePing ++ [10, 10]
            ++ frameResponseB ++ [10, 10])) ∧
      processEvents (jsonParse intOps) intOps Sess.init ([frameResponseA] ++ [frameResponseB])
        = .ok final' ∧
      final.view = final'.view :=
  ⟨by decide, by decide,
    bad_frame_skipped (jsonParse intOps) intOps Sess.init _ [frameResponseA] [frameResponseB]
      framePing (by decide) (Or.inl (by decide))⟩

/-- Witness of `done_payload_not_dispatched`: a `done` frame between two response
frames. -/
theorem done_payload_not_dispatched_witness :
    jsonParse intOps (payloadText frameDone)
      = some (.obj [(u16 "type", .str (u16 "done"))]) ∧
    ∃ before after final final' : Sess Int,
      processEvents (jsonParse intOps) intOps Sess.init [frameResponseA] = .ok before ∧
      processEvent (jsonParse intOps) intOps before frameDone = .ok after ∧
      after.view = before.view ∧
      processBuffer (jsonParse intOps) intOps Sess.init
        (frameResponseA ++ [10, 10] ++ frameDone ++ [10, 10] ++ frameResponseB ++ [10, 10])
        = .ok (final, carryOf (frameResponseA ++ [10, 10] ++ frameDone ++ [10, 10]
            ++ frameResponseB ++ [10, 10])) ∧
      processEvents (jsonParse intOps) intOps Sess.init ([frameResponseA] ++ [frameResponseB])
        = .ok final' ∧
      final.view = final'.view :=
  ⟨rfl,
    done_payload_not_dispatched (jsonParse intOps) intOps Sess.init _ [frameResponseA]
      [frameResponseB] frameDone [(u16 "type", .str (u16 "done"))] (by decide) rfl rfl⟩

section Lemmas

variable (ops : NumOps N)

theorem or_str_empty (c : Str) :
    (JVal.str c : JVal N).or ops (.str []) = .str c := by
  cases c <;> simp [JVal.or, JVal.truthy]

theorem add_str_str (a b : Str) :
    (JVal.str a : JVal N).add ops (.str b) = some (.str (a ++ b)) := by
  simp [JVal.add, JVal.toPrimitive, JVal.addPrimitives, JVal.toStr]

theorem handlePayload_thinking (s : Sess N) (members : List (Str × JVal N)) (c : Str)
    (hty : JVal.lookup (u16 "type") members = some (.str (u16 "thinking")))
    (hct : JVal.lookup (u16 "content") members = some (.str c)) :
    handlePayload ops s (.obj members) =
      (updateThinking
        { s with
          handled := s.handled ++ [.obj members]
          thinkingText := s.thinkingText ++ c }, none) := by
  have h1 : (u16 "thinking" == u16 "thinking") = true := by decide
  have h2 : (u16 "thinking").isEmpty = false := by decide
  simp [handlePayload, JVal.truthy, JVal.getProp, hty, hct, JVal.isStr, h1, h2, or_str_empty,
    JVal.toStr]

theorem handlePayload_response (s : Sess N) (members : List (Str × JVal N)) (r c : Str)
    (hs : s.responseText = .str r)
    (hty : JVal.lookup (u16 "type") members = some (.str (u16 "response")))
    (hct : JVal.lookup (u16 "content") members = some (.str c)) :
    handlePayload ops s (.obj members) =
      ({ s with
          handled := s.handled ++ [.obj members]
          responseText := .str (r ++ c)
          bubbleText := r ++ c }, none) := by
  have h1 : (u16 "response" == u16 "response") = true := by decide
  have h2 : (u16 "response").isEmpty = false := by decide
  have h3 : (u16 "response" == u16 "thinking") = false := by decide
  simp [handlePayload, JVal.truthy, JVal.getProp, hty, hct, JVal.isStr, h1, h2, h3,
    or_str_empty, hs, add_str_str, andUpdateResponse, updateResponse, JVal.domString,
    JVal.toStr]

theorem handlePayload_error (s : Sess N) (members : List (Str × JVal N)) (c : Str)
    (hty : JVal.lookup (u16 "type") members = some (.str (u16 "error")))
    (hct : JVal.lookup (u16 "content") members = some (.str c)) (hc : c ≠ []) :
    handlePayload ops s (.obj members) =
      ({ s with
          handled := s.handled ++ [.obj members]
          responseText := .str c
          bubbleError := true
          bubbleText := c }, none) := by
  have h1 : (u16 "error" == u16 "error") = true := by decide
  have h2 : (u16 "error").isEmpty = false := by decide
  have h3 : (u16 "error" == u16 "thinking") = false := by decide
  have h4 : (u16 "error" == u16 "response") = false := by decide
  have hor : (JVal.str c : JVal N).or ops (.str (u16 "エラーが発生しました。")) = .str c := by
    cases c with
    | nil => exact absurd rfl hc
    | cons x xs => simp [JVal.or, JVal.truthy]
  simp [handlePayload, JVal.truthy, JVal.getProp, hty, hct, JVal.isStr, h1, h2, h3, h4, hor,
    andUpdateResponse, updateResponse, JVal.domString, JVal.toStr]

end Lemmas

section Lemmas

theorem splitLines_line (l t : Str) (h10 : 10 ∉ l) (h13 : l.getLast? ≠ some 13) :
    splitLines (l ++ 10 :: t) = l :: splitLines t := by
  induction l with
  | nil =>
    cases t with
    | nil => simp [splitLines]
    | cons d rest => simp [splitLines]
  | cons c l ih =>
    have hc : c ≠ 10 := fun h => h10 (by simp [h])
    have hl : 10 ∉ l := fun h => h10 (by simp [h])
    cases l with
    | nil =>
      have hc13 : c ≠ 13 := fun h => h13 (by simp [h])
      have := ih hl (by simp)
      simp only [List.nil_append] at this
      simp [splitLines, hc, hc13, this, consHead]
    | cons d l =>
      have hd : d ≠ 10 := fun h => hl (by simp [h])
      have := ih hl (by simpa [List.getLast?_cons_cons] using h13)
      simp only [List.cons_append] at this
      simp [splitLines, hc, hd, this, consHead]

theorem splitLines_concat (lines : List Str)
    (h : ∀ l ∈ lines, 10 ∉ l ∧ l.getLast? ≠ some 13) :
    splitLines (concat (lines.map (fun l => l ++ [10]))) = lines ++ [[]] := by
  induction lines with
  | nil => simp [concat, splitLines]
  | cons l lines ih =>
    have hl := h l (by simp)
    have := ih (fun x hx => h x (by simp [hx]))
    simp only [List.map_cons, concat, List.append_assoc, List.singleton_append,
      List.cons_append]
    rw [splitLines_line l _ hl.1 hl.2]
    simp [this]

theorem join_append_empty (xs : List Str) :
    join [10] (xs ++ [[]]) = concat (xs.map (fun l => l ++ [10])) := by
  induction xs with
  | nil => simp [join, concat]
  | cons x xs ih =>
    cases xs with
    | nil => simp [join, concat]
    | cons y ys =>
      simp only [List.cons_append, join, List.map_cons, concat] at ih ⊢
      have happ : ys.append [[]] = ys ++ [[]] := rfl
      rw [happ, ih]

theorem concat_eq_nil_of_map (lines : List Str)
    (h : concat (lines.map (fun l => l ++ [10])) = []) : lines = [] := by
  cases lines with
  | nil => rfl
  | cons l lines => simp [concat] at h

theorem getLastLines_lines (lines : List Str)
    (h : ∀ l ∈ lines, 10 ∉ l ∧ l.getLast? ≠ some 13) :
    getLastLines (concat (lines.map (fun l => l ++ [10]))) 3 =
      concat ((lines.drop (lines.length - 2)).map (fun l => l ++ [10])) := by
  unfold getLastLines
  by_cases hnil : concat (lines.map (fun l => l ++ [10])) = []
  · have := concat_eq_nil_of_map lines hnil
    subst this
    simp [concat]
  · simp only [hnil, if_false]
    rw [splitLines_concat lines h]
    have hlen : (lines ++ [[]]).length - 3 = lines.length - 2 := by
      simp
    rw [hlen, List.drop_append_of_le_length (Nat.sub_le _ _), join_append_empty]

variable (ops : NumOps N)

theorem handlePayload_thinkingPayload (s : Sess N) (c : Str) :
    (handlePayload ops s (thinkingPayload c)).1.thinkingText = s.thinkingText ++ c ∧
    (handlePayload ops s (thinkingPayload c)).1.thinkingContent =
      if s.thinkingText ++ c = [] then s.thinkingContent
      else getLastLines (s.thinkingText ++ c) 3 := by
  have hty : JVal.lookup (u16 "type")
      [(u16 "type", (JVal.str (u16 "thinking") : JVal N)), (u16 "content", .str c)]
      = some (.str (u16 "thinking")) := rfl
  have hct : JVal.lookup (u16 "content")
      [(u16 "type", (JVal.str (u16 "thinking") : JVal N)), (u16 "content", .str c)]
      = some (.str c) := rfl
  unfold thinkingPayload
  rw [handlePayload_thinking ops s _ c hty hct]
  simp only [updateThinking]
  split_ifs <;> simp_all

theorem thinking_fold (s : Sess N) (contents : List Str)
    (hs : s.thinkingContent = getLastLines s.thinkingText 3) :
    (contents.foldl (fun t c => (handlePayload ops t (thinkingPayload c)).1) s).thinkingText
      = s.thinkingText ++ concat contents ∧
    (contents.foldl (fun t c => (handlePayload ops t (thinkingPayload c)).1) s).thinkingContent
      = getLastLines
          (contents.foldl
            (fun t c => (handlePayload ops t (thinkingPayload c)).1) s).thinkingText
          3 := by
  induction contents generalizing s with
  | nil => simp [concat, hs]
  | cons c contents ih =>
    obtain ⟨h1, h2⟩ := handlePayload_thinkingPayload ops s c
    have hs' : (handlePayload ops s (thinkingPayload c)).1.thinkingContent =
        getLastLines (handlePayload ops s (thinkingPayload c)).1.thinkingText 3 := by
      rw [h2, h1]
      split_ifs with h
      · rw [hs, h]
        have : s.thinkingText = [] := (List.append_eq_nil.mp h).1
        rw [this]
      · rfl
    obtain ⟨i1, i2⟩ := ih _ hs'
    simp only [List.foldl_cons]
    refine ⟨?_, i2⟩
    rw [i1, h1]
    simp [concat]

end Lemmas

/-- C5 (as stated, refuted): after the thinking contents `line1\n`, `line2\n`,
`line3\n`, `line4\n` arrive in separate payloads the preview is `line3\nline4\n`:
its segments are `line3`, `line4` and an empty one, and `line2` is not shown. -/
theorem thinking_preview_counterexample :
    (afterThinking intOps
        [u16 "line1\n", u16 "line2\n", u16 "line3\n", u16 "line4\n"]).thinkingContent
      = u16 "line3\nline4\n" ∧
    splitLines (u16 "line3\nline4\n") = [u16 "line3", u16 "line4", []] ∧
    u16 "line2" ∉ splitLines (u16 "line3\nline4\n") ∧
    u16 "line3\nline4\n" ≠ u16 "line2\nline3\nline4" ∧
    u16 "line3\nline4\n" ≠ u16 "line2\nline3\nline4\n" :=
  ⟨rfl, by decide, by decide, by decide, by decide⟩

/-- C5 (amended): for every sequence of thinking payloads whose contents are lines
terminated by a line feed (no line feed inside a line, no carriage return at its
end), after the payloads the preview is `getLastLines(thinkingText, 3)`, the last
three segments of the accumulated text as `split(/\r?\n/)` cuts it: the last two
lines received, each followed by its line feed, and the empty segment after the
final line feed. -/
theorem thinking_preview_last_segments (ops : NumOps N) (lines : List Str)
    (h : ∀ l ∈ lines, 10 ∉ l ∧ l.getLast? ≠ some 13) :
    (afterThinking ops (lines.map (fun l => l ++ [10]))).thinkingText
      = concat (lines.map (fun l => l ++ [10])) ∧
    (afterThinking ops (lines.map (fun l => l ++ [10]))).thinkingContent
      = getLastLines (afterThinking ops (lines.map (fun l => l ++ [10]))).thinkingText 3 ∧
    (afterThinking ops (lines.map (fun l => l ++ [10]))).thinkingContent
      = concat ((lines.drop (lines.length - 2)).map (fun l => l ++ [10])) ∧
    splitLines (afterThinking ops (lines.map (fun l => l ++ [10]))).thinkingContent
      = lines.drop (lines.length - 2) ++ [[]] := by
  obtain ⟨h1, h2⟩ := thinking_fold ops (Sess.init : Sess N) (lines.map (fun l => l ++ [10]))
    (by simp [Sess.init, getLastLines])
  change (afterThinking ops (lines.map (fun l => l ++ [10]))).thinkingText = _ at h1
  change (afterThinking ops (lines.map (fun l => l ++ [10]))).thinkingContent
    = getLastLines (afterThinking ops (lines.map (fun l => l ++ [10]))).thinkingText 3 at h2
  have h1' : (afterThinking ops (lines.map (fun l => l ++ [10]))).thinkingText
      = concat (lines.map (fun l => l ++ [10])) := by
    simpa [Sess.init] using h1
  have h3 : (afterThinking ops (lines.map (fun l => l ++ [10]))).thinkingContent
      = concat ((lines.drop (lines.length - 2)).map (fun l => l ++ [10])) := by
    rw [h2, h1', getLastLines_lines lines h]
  refine ⟨h1', h2, h3, ?_⟩
  rw [h3]
  exact splitLines_concat _ (fun l hl => h l (List.mem_of_mem_drop hl))

/-- Witness of `thinking_preview_last_segments`: the four lines of the spec's example;
the preview holds `line3`, `line4` and the empty last segment. -/
theorem thinking_preview_last_segments_witness :
    (∀ l ∈ [u16 "line1", u16 "line2", u16 "line3", u16 "line4"],
      10 ∉ l ∧ l.getLast? ≠ some 13) ∧
    splitLines (afterThinking intOps
        ([u16 "line1", u16 "line2", u16 "line3", u16 "line4"].map
          (fun l => l ++ [10]))).thinkingContent
      = [u16 "line3", u16 "line4", []] :=
  ⟨by decide,
    (thinking_preview_last_segments intOps
      [u16 "line1", u16 "line2", u16 "line3", u16 "line4"] (by decide)).2.2.2⟩

section Lemmas

theorem abortActive_fields (ui : Ui) :
    (abortActive ui).activeStreamController = ui.activeStreamController ∧
    (abortActive ui).controllers = ui.controllers ∧
    (abortActive ui).running = ui.running ∧
    (abortActive ui).isLoading = ui.isLoading ∧
    (abortActive ui).requests = ui.requests ∧
    (abortActive ui).chat = ui.chat ∧
    (∀ c, c ∈ ui.aborted → c ∈ (abortActive ui).aborted) ∧
    (∀ c, ui.activeStreamController = some c → c ∈ (abortActive ui).aborted) := by
  unfold abortActive
  split
  · rename_i c hc
    refine ⟨rfl, rfl, rfl, rfl, rfl, rfl, fun x hx => by simp [hx], fun x hx => ?_⟩
    rw [hc] at hx
    simp [Option.some.inj hx]
  · rename_i hc
    refine ⟨rfl, rfl, rfl, rfl, rfl, rfl, fun x hx => hx, fun x hx => ?_⟩
    rw [hc] at hx
    exact Option.noConfusion hx

theorem streamChatStart_fields (formData : FormData) (ui : Ui) :
    (streamChatStart formData ui).activeStreamController = some ui.controllers ∧
    (streamChatStart formData ui).controllers = ui.controllers + 1 ∧
    (streamChatStart formData ui).running = ui.running ++ [ui.controllers] ∧
    (streamChatStart formData ui).aborted = (abortActive ui).aborted ∧
    (streamChatStart formData ui).isLoading = true ∧
    (streamChatStart formData ui).requests = ui.requests ++ [(ui.controllers, formData)] ∧
    (streamChatStart formData ui).chat = ui.chat ++ [ChatItem.assistant ui.controllers] := by
  obtain ⟨h1, h2, h3, h4, h5, h6, _, _⟩ := abortActive_fields ui
  simp [streamChatStart, installController, setLoading, h2, h3, h5, h6]

theorem streamChatFinally_fields (c : Nat) (ui : Ui) :
    (streamChatFinally c ui).activeStreamController =
      (if ui.activeStreamController = some c then none else ui.activeStreamController) ∧
    (streamChatFinally c ui).controllers = ui.controllers ∧
    (streamChatFinally c ui).running = ui.running.erase c ∧
    (streamChatFinally c ui).aborted = ui.aborted ∧
    (streamChatFinally c ui).isLoading = false := by
  unfold streamChatFinally setLoading
  by_cases h : ui.activeStreamController = some c <;> simp [h]

theorem sessionInv_init : SessionInv Ui.init := by
  simp [SessionInv, Ui.init]

theorem sessionInv_abortActive (ui : Ui) (h : SessionInv ui) : SessionInv (abortActive ui) := by
  obtain ⟨a1, a2, a3, _, _, _, a7, _⟩ := abortActive_fields ui
  obtain ⟨i1, i2, i3, i4, i5⟩ := h
  refine ⟨?_, ?_, ?_, ?_, ?_⟩
  · rw [a1, a2]; exact i1
  · rw [a2, a3]; exact i2
  · rw [a3, a1]
    intro c hc
    rcases i3 c hc with h | h
    · exact Or.inl h
    · exact Or.inr (a7 c h)
  · rw [a1, a3]; exact i4
  · rw [a3]; exact i5

theorem sessionInv_start (formData : FormData) (ui : Ui) (h : SessionInv ui) :
    SessionInv (streamChatStart formData ui) := by
  obtain ⟨s1, s2, s3, s4, _, _, _⟩ := streamChatStart_fields formData ui
  obtain ⟨_, _, _, _, _, _, a7, a8⟩ := abortActive_fields ui
  obtain ⟨_, i2, i3, _, i5⟩ := h
  refine ⟨?_, ?_, ?_, ?_, ?_⟩
  · right; rw [s1, s2]; simp
  · rw [s2, s3]
    intro c hc
    rcases List.mem_append.mp hc with hc | hc
    · exact Nat.lt_succ_of_lt (i2 c hc)
    · simp at hc; omega
  · rw [s1, s3, s4]
    intro c hc
    rcases List.mem_append.mp hc with hc | hc
    · right
      rcases i3 c hc with h | h
      · exact a8 c h
      · exact a7 c h
    · left; simp at hc; rw [hc]
  · rw [s1, s3]
    intro c hc
    simp at hc
    simp [hc]
  · rw [s3]
    refine List.Nodup.append i5 (List.nodup_singleton _) ?_
    intro c hc hc'
    simp at hc'
    have := i2 c hc
    omega

theorem sessionInv_finally (c : Nat) (ui : Ui) (h : SessionInv ui) :
    SessionInv (streamChatFinally c ui) := by
  obtain ⟨f1, f2, f3, f4, _⟩ := streamChatFinally_fields c ui
  obtain ⟨i1, i2, i3, i4, i5⟩ := h
  refine ⟨?_, ?_, ?_, ?_, ?_⟩
  · rw [f1, f2]
    by_cases hc : ui.activeStreamController = some c
    · simp [hc]
    · simp only [hc, if_false]; exact i1
  · rw [f2, f3]
    intro d hd
    exact i2 d (List.mem_of_mem_erase hd)
  · rw [f1, f3, f4]
    intro d hd
    have hne : d ≠ c := fun e => by
      subst e
      exact (List.Nodup.not_mem_erase i5) hd
    rcases i3 d (List.mem_of_mem_erase hd) with h | h
    · left
      have : ui.activeStreamController ≠ some c := by
        rw [h]; intro e; exact hne (Option.some.inj e)
      rw [if_neg this]; exact h
    · exact Or.inr h
  · rw [f1, f3]
    intro d hd
    by_cases hc : ui.activeStreamController = some c
    · simp [hc] at hd
    · simp only [hc, if_false] at hd
      have hne : d ≠ c := fun e => hc (by rw [hd, e])
      exact (List.mem_erase_of_ne hne).mpr (i4 d hd)
  · rw [f3]; exact i5.erase c

theorem sessionInv_of_reachable (ui : Ui) (h : Reachable ui) : SessionInv ui := by
  induction h with
  | init => exact sessionInv_init
  | start formData _ ih => exact sessionInv_start formData _ ih
  | complete c _ _ ih => exact sessionInv_finally c _ ih
  | click _ ih =>
    unfold submitClick
    split_ifs
    · exact ih
    · exact sessionInv_abortActive _ ih

end Lemmas

/-- C3: in every state reachable by starting sessions, completing running sessions
and clicking the submit button, the active handle is `null` or the controller
created last, and a running session other than the active one has had `abort()`
called on its controller; starting a session while controller `c` is active calls
`abort()` on `c` while `c` is still the handle, and only then installs the new
controller; the `finally` block of a session that is not the active one leaves the
handle as it is. -/
theorem at_most_one_active_session (ui : Ui) (h : Reachable ui) :
    (ui.activeStreamController = none ∨
      (0 < ui.controllers ∧ ui.activeStreamController = some (ui.controllers - 1))) ∧
    (∀ c ∈ ui.running, ui.activeStreamController = some c ∨ c ∈ ui.aborted) ∧
    (∀ (formData : FormData) (c : Nat), ui.activeStreamController = some c →
      c ∈ (abortActive ui).aborted ∧
      (abortActive ui).activeStreamController = some c ∧
      c ∈ (streamChatStart formData ui).aborted ∧
      (streamChatStart formData ui).activeStreamController = some ui.controllers ∧
      c ≠ ui.controllers) ∧
    (∀ c b : Nat, c ∈ ui.running → ui.activeStreamController = some b → c ≠ b →
      (streamChatFinally c ui).activeStreamController = some b) := by
  obtain ⟨i1, i2, i3, i4, _⟩ := sessionInv_of_reachable ui h
  refine ⟨i1, i3, ?_, ?_⟩
  · intro formData c hc
    obtain ⟨a1, _, _, _, _, _, _, a8⟩ := abortActive_fields ui
    obtain ⟨s1, _, _, s4, _, _, _⟩ := streamChatStart_fields formData ui
    refine ⟨a8 c hc, by rw [a1, hc], by rw [s4]; exact a8 c hc, s1, ?_⟩
    have := i2 c (i4 c hc)
    omega
  · intro c b _ hb hne
    obtain ⟨f1, _⟩ := streamChatFinally_fields c ui
    rw [f1, hb]
    have : ¬ (some b = some c) := fun e => hne (Option.some.inj e).symm
    simp [this]

/-- Witness of `at_most_one_active_session`: session A started, then session B, then
A completed; the handle is still the controller of B. -/
theorem at_most_one_active_session_witness :
    Reachable supersededThenCompleted ∧
    supersededThenCompleted.activeStreamController = some 1 ∧
    supersededThenCompleted.aborted = [0] ∧
    (supersededThenCompleted.activeStreamController = none ∨
      (0 < supersededThenCompleted.controllers ∧
        supersededThenCompleted.activeStreamController
          = some (supersededThenCompleted.controllers - 1))) :=
  have hr : Reachable supersededThenCompleted :=
    Reachable.complete 0 (Reachable.start _ (Reachable.start _ Reachable.init)) (by decide)
  ⟨hr, by decide, by decide, (at_most_one_active_session _ hr).1⟩

/-- C10 (the code at the failing input): after session A is superseded by session B
and the `finally` block of A has run, session B is still running and its controller
is the active one, but the form is no longer in the loading state, so a click on the
submit button does not abort B and does not prevent the default action. -/
theorem loading_lost_after_superseded_session :
    Reachable supersededThenCompleted ∧
    supersededThenCompleted.activeStreamController = some 1 ∧
    1 ∈ supersededThenCompleted.running ∧
    supersededThenCompleted.isLoading = false ∧
    submitClick supersededThenCompleted = (supersededThenCompleted, false) :=
  ⟨Reachable.complete 0 (Reachable.start _ (Reachable.start _ Reachable.init)) (by decide),
    by decide, by decide, by decide, by decide⟩

theorem hasImages_eq_false_iff (imageInput : Option ImageInput) :
    hasImages imageInput = false ↔ attachedFiles imageInput = [] := by
  cases imageInput with
  | none => simp [hasImages, attachedFiles]
  | some el =>
    cases el with
    | mk files =>
      cases files with
      | none => simp [hasImages, attachedFiles]
      | some files =>
        cases files <;> simp [hasImages, attachedFiles]

/-- C9: for every input text and every list of attached images, when the trimmed text
is empty and no image is attached, `handleStreamingSubmit` leaves the state as it
is (no user message, no request, no new controller, same active handle); when the
trimmed text is not empty or at least one image is attached, it appends the user
message and runs the start of `streamChat` on the form data with `user_input` set
to the trimmed text, which sends exactly one request. -/
theorem empty_submission_never_requests (inputValue : Str) (imageInput : Option ImageInput)
    (previewUrls : List Str) (form : FormData) (ui : Ui) :
    (trim inputValue = [] ∧ attachedFiles imageInput = [] →
      handleStreamingSubmit inputValue imageInput previewUrls form ui = ui) ∧
    (trim inputValue ≠ [] ∨ attachedFiles imageInput ≠ [] →
      handleStreamingSubmit inputValue imageInput previewUrls form ui
        = streamChatStart { form with user_input := trim inputValue }
            (appendUserMessage (trim inputValue) previewUrls ui) ∧
      (handleStreamingSubmit inputValue imageInput previewUrls form ui).requests
        = ui.requests ++ [(ui.controllers, { form with user_input := trim inputValue })] ∧
      (handleStreamingSubmit inputValue imageInput previewUrls form ui).chat
        = ui.chat ++ [ChatItem.user (trim inputValue) previewUrls,
            ChatItem.assistant ui.controllers] ∧
      (handleStreamingSubmit inputValue imageInput previewUrls form ui).activeStreamController
        = some ui.controllers) := by
  constructor
  · intro h
    simp [handleStreamingSubmit, h.1, (hasImages_eq_false_iff imageInput).mpr h.2]
  · intro h
    have hcond : ¬ (trim inputValue = [] ∧ hasImages imageInput = false) := by
      intro hc
      rcases h with h | h
      · exact h hc.1
      · exact h ((hasImages_eq_false_iff imageInput).mp hc.2)
    obtain ⟨s1, _, _, _, _, s6, s7⟩ := streamChatStart_fields
      { form with user_input := trim inputValue }
      (appendUserMessage (trim inputValue) previewUrls ui)
    have heq : handleStreamingSubmit inputValue imageInput previewUrls form ui
        = streamChatStart { form with user_input := trim inputValue }
            (appendUserMessage (trim inputValue) previewUrls ui) := by
      simp [handleStreamingSubmit, hcond]
    refine ⟨heq, ?_, ?_, ?_⟩
    · rw [heq, s6]; rfl
    · rw [heq, s7]; simp [appendUserMessage]
    · rw [heq, s1]; rfl

/-- Witness of `empty_submission_never_requests`: blanks without an image change
nothing; blanks with one attached image send one request with an empty
`user_input`; the text ` hi ` without an image sends one request with `user_input`
equal to `hi`. -/
theorem empty_submission_never_requests_witness :
    handleStreamingSubmit (u16 "  \n ") (some { files := some [] }) []
        { user_input := u16 "  \n ", files := [] } Ui.init = Ui.init ∧
    (handleStreamingSubmit (u16 "  \n ") (some { files := some [u16 "cat.png"] }) []
        { user_input := u16 "  \n ", files := [u16 "cat.png"] } Ui.init).requests
      = [(0, { user_input := [], files := [u16 "cat.png"] })] ∧
    (handleStreamingSubmit (u16 " hi ") none [] { user_input := u16 " hi ", files := [] }
        Ui.init).requests
      = [(0, { user_input := u16 "hi", files := [] })] :=
  ⟨(empty_submission_never_requests (u16 "  \n ") (some { files := some [] }) []
      { user_input := u16 "  \n ", files := [] } Ui.init).1 ⟨by decide, by decide⟩,
    ((empty_submission_never_requests (u16 "  \n ") (some { files := some [u16 "cat.png"] }) []
      { user_input := u16 "  \n ", files := [u16 "cat.png"] } Ui.init).2
        (Or.inr (by decide))).2.1,
    ((empty_submission_never_requests (u16 " hi ") none []
      { user_input := u16 " hi ", files := [] } Ui.init).2 (Or.inl (by decide))).2.1⟩

section Lemmas

theorem splitBlank_ne_nil (x : Str) : splitBlank x ≠ [] := by
  induction x using splitBlank.induct with
  | case1 => simp [splitBlank]
  | case2 c => simp [splitBlank]
  | case3 c d rest h ih => simp [splitBlank, h]
  | case4 c d rest h ih =>
    simp only [splitBlank, h, if_false]
    cases hs : splitBlank (d :: rest) with
    | nil => exact absurd hs ih
    | cons p ps => simp [consHead]

theorem splitBlank_singleton (x p : Str) (h : splitBlank x = [p]) : p = x := by
  induction x using splitBlank.induct generalizing p with
  | case1 => simpa [splitBlank] using h.symm
  | case2 c => simpa [splitBlank] using h.symm
  | case3 c d rest hc ih =>
    simp only [splitBlank, hc, and_self, if_true, List.cons.injEq] at h
    exact absurd h.2 (splitBlank_ne_nil rest)
  | case4 c d rest hc ih =>
    simp only [splitBlank, hc, if_false] at h
    cases hs : splitBlank (d :: rest) with
    | nil => exact absurd hs (splitBlank_ne_nil _)
    | cons q qs =>
      rw [hs] at h
      simp only [consHead, List.cons.injEq] at h
      obtain ⟨h1, h2⟩ := h
      subst h2
      rw [← h1, ih q hs]

theorem splitBlank_cons_cons_of_not (c d : Nat) (rest : Str) (hc : ¬(c = 10 ∧ d = 10)) :
    splitBlank (c :: d :: rest) = consHead c (splitBlank (d :: rest)) := by
  simp [splitBlank, hc]

theorem splitBlank_cons_cons_of_blank (c d : Nat) (rest : Str) (hc : c = 10 ∧ d = 10) :
    splitBlank (c :: d :: rest) = [] :: splitBlank rest := by
  simp [splitBlank, hc]

theorem splitBlank_append (x y : Str) :
    splitBlank (x ++ y) = completeFrames x ++ splitBlank (carryOf x ++ y) := by
  induction x using splitBlank.induct with
  | case1 => simp [completeFrames, carryOf, splitBlank]
  | case2 c => simp [completeFrames, carryOf, splitBlank]
  | case3 c d rest hc ih =>
    obtain ⟨q, qs, hq⟩ := List.exists_cons_of_ne_nil (splitBlank_ne_nil rest)
    simp only [completeFrames, carryOf] at ih ⊢
    rw [List.cons_append, List.cons_append, splitBlank_cons_cons_of_blank _ _ _ hc,
      splitBlank_cons_cons_of_blank _ _ _ hc, ih, hq]
    simp [List.dropLast, List.getLast?_cons_cons]
  | case4 c d rest hc ih =>
    simp only [completeFrames, carryOf] at ih ⊢
    rw [List.cons_append] at ih
    rw [List.cons_append, List.cons_append, splitBlank_cons_cons_of_not _ _ _ hc,
      splitBlank_cons_cons_of_not _ _ _ hc, ih]
    cases hs : splitBlank (d :: rest) with
    | nil => exact absurd hs (splitBlank_ne_nil _)
    | cons q qs =>
      cases qs with
      | nil =>
        have hq := splitBlank_singleton _ _ hs
        subst hq
        simp [consHead, splitBlank_cons_cons_of_not _ _ _ hc]
      | cons q2 qs2 =>
        simp [consHead, List.dropLast, List.getLast?_cons_cons]

theorem carryOf_noBlank (x : Str) : splitBlank (carryOf x) = [carryOf x] := by
  induction x using splitBlank.induct with
  | case1 => simp [carryOf, splitBlank]
  | case2 c => simp [carryOf, splitBlank]
  | case3 c d rest hc ih =>
    obtain ⟨q, qs, hq⟩ := List.exists_cons_of_ne_nil (splitBlank_ne_nil rest)
    have : carryOf (c :: d :: rest) = carryOf rest := by
      simp [carryOf, splitBlank, hc, hq, List.getLast?_cons_cons]
    rw [this]; exact ih
  | case4 c d rest hc ih =>
    cases hs : splitBlank (d :: rest) with
    | nil => exact absurd hs (splitBlank_ne_nil _)
    | cons q qs =>
      cases qs with
      | nil =>
        have hq := splitBlank_singleton _ _ hs
        subst hq
        have : carryOf (c :: d :: rest) = c :: d :: rest := by
          simp [carryOf, splitBlank, hc, hs, consHead]
        rw [this]
        simp [splitBlank, hc, hs, consHead]
      | cons q2 qs2 =>
        have : carryOf (c :: d :: rest) = carryOf (d :: rest) := by
          simp [carryOf, splitBlank, hc, hs, consHead, List.getLast?_cons_cons]
        rw [this]; exact ih

end Lemmas

section Lemmas

theorem splitBlank_frame (f t : Str) (hf : isFrameText f = true) :
    splitBlank (f ++ 10 :: 10 :: t) = f :: splitBlank t := by
  induction f with
  | nil => simp [splitBlank]
  | cons c f ih =>
    cases f with
    | nil =>
      have hc : c ≠ 10 := by simpa [isFrameText] using hf
      simp [splitBlank, hc, consHead]
    | cons d rest =>
      simp only [isFrameText, Bool.and_eq_true, Bool.not_eq_true', Bool.and_eq_false_imp,
        beq_iff_eq] at hf
      have hcd : ¬(c = 10 ∧ d = 10) := by
        intro h
        have := hf.1 h.1
        simp [h.2] at this
      have := ih hf.2
      rw [List.cons_append] at this
      rw [List.cons_append, List.cons_append, splitBlank_cons_cons_of_not _ _ _ hcd, this]
      rfl

theorem splitBlank_streamText (frames : List Str)
    (h : ∀ f ∈ frames, isFrameText f = true) :
    splitBlank (streamText frames) = frames ++ [[]] := by
  induction frames with
  | nil => simp [streamText, splitBlank]
  | cons f frames ih =>
    have hf := h f (by simp)
    have := ih (fun g hg => h g (by simp [hg]))
    simp only [streamText, List.append_assoc, List.cons_append, List.nil_append]
    rw [splitBlank_frame f _ hf, this]

theorem completeFrames_streamText (frames : List Str)
    (h : ∀ f ∈ frames, isFrameText f = true) :
    completeFrames (streamText frames) = frames ∧ carryOf (streamText frames) = [] := by
  simp [completeFrames, carryOf, splitBlank_streamText frames h]

theorem decode_append (st : Utf8State) (a b : List Nat) :
    decode st (a ++ b) =
      ((decode (decode st a).1 b).1, (decode st a).2 ++ (decode (decode st a).1 b).2) := by
  induction a generalizing st with
  | nil => simp [decode]
  | cons x a ih => simp [decode, ih, List.append_assoc]

variable (parse : Str → Option (JVal N)) (ops : NumOps N)

theorem readLoop_eq (ls : LoopState N) (chunks : List (List Nat))
    (hb : splitBlank ls.buffer = [ls.buffer]) :
    readLoop parse ops ls chunks = .ok
      { decoder := (decode ls.decoder (concat chunks)).1
        buffer := carryOf (ls.buffer ++ (decode ls.decoder (concat chunks)).2)
        sess := afterEvents parse ops ls.sess
          (completeFrames (ls.buffer ++ (decode ls.decoder (concat chunks)).2)) } := by
  induction chunks generalizing ls with
  | nil =>
    cases ls with
    | mk dcd buf sess =>
      simp only at hb
      simp [readLoop, concat, decode, carryOf, completeFrames, hb, afterEvents]
  | cons chunk rest ih =>
    simp only [readLoop, processBuffer_eq_ok, concat]
    rw [ih _ (carryOf_noBlank _), decode_append]
    simp only
    have hsplit := splitBlank_append (ls.buffer ++ (decode ls.decoder chunk).2)
      (decode (decode ls.decoder chunk).1 (concat rest)).2
    have hne := splitBlank_ne_nil
      (carryOf (ls.buffer ++ (decode ls.decoder chunk).2) ++
        (decode (decode ls.decoder chunk).1 (concat rest)).2)
    congr 2
    · simp only [carryOf, ← List.append_assoc]
      rw [hsplit, List.getLast?_append_of_ne_nil _ hne]
      rfl
    · simp only [completeFrames, ← List.append_assoc]
      rw [hsplit, List.dropLast_append_of_ne_nil _ hne, afterEvents_append]
      rfl

theorem flushCarry_eq (ls : LoopState N) (hb : splitBlank ls.buffer = [ls.buffer]) :
    flushCarry parse ops ls = .ok ls.sess := by
  unfold flushCarry
  split_ifs
  · simp [processBuffer_eq_ok, completeFrames, hb, afterEvents]
  · rfl

theorem readStream_eq (s : Sess N) (chunks : List (List Nat)) :
    readStream parse ops s chunks = .ok
      (afterEvents parse ops s
        (completeFrames (decode Utf8State.init (concat chunks)).2)) := by
  unfold readStream
  rw [readLoop_eq parse ops _ chunks (by simp [LoopState.init, splitBlank])]
  simp only
  rw [flushCarry_eq parse ops _ (carryOf_noBlank _)]
  simp [LoopState.init]

end Lemmas

section Lemmas

variable (parse : Str → Option (JVal N)) (ops : NumOps N)

theorem lookup_of_isStr (k t : Str) (members : List (Str × JVal N))
    (h : ((JVal.lookup k members).getD .undefined).isStr t = true) :
    JVal.lookup k members = some (.str t) := by
  cases hl : JVal.lookup k members with
  | none => rw [hl] at h; simp [JVal.isStr] at h
  | some v =>
    rw [hl] at h
    cases v <;> simp [JVal.isStr] at h
    rw [h]

theorem typeIs_obj (payload : JVal N) (t : Str) (h : typeIs payload t = true) :
    ∃ members, payload = .obj members ∧
      JVal.lookup (u16 "type") members = some (.str t) := by
  cases payload <;> simp [typeIs] at h
  exact ⟨_, rfl, lookup_of_isStr _ _ _ h⟩

theorem contentStr_obj (members : List (Str × JVal N)) (c : Str)
    (h : contentStr (JVal.obj members) = some c) :
    JVal.lookup (u16 "content") members = some (.str c) := by
  simp only [contentStr] at h
  cases hl : JVal.lookup (u16 "content") members with
  | none => rw [hl] at h; simp at h
  | some v =>
    rw [hl] at h
    cases v <;> simp at h
    rw [h]

theorem typeIs_unique (payload : JVal N) (a b : Str) (ha : typeIs payload a = true)
    (hb : typeIs payload b = true) : a = b := by
  obtain ⟨m1, h1, l1⟩ := typeIs_obj payload a ha
  obtain ⟨m2, h2, l2⟩ := typeIs_obj payload b hb
  rw [h1] at h2
  cases h2
  rw [l1] at l2
  cases l2
  rfl

theorem afterEvent_stream (s : Sess N) (r : Str) (f : Str) (payload : JVal N)
    (hs : s.responseText = .str r)
    (hc : Carries parse f payload) (hp : isStreamPayload payload = true) :
    (afterEvent parse ops s f).responseText = .str (r ++ responseContent payload) ∧
    (afterEvent parse ops s f).bubbleError = s.bubbleError ∧
    (s.bubbleText = r →
      (afterEvent parse ops s f).bubbleText = r ++ responseContent payload) := by
  obtain ⟨hne, hparse⟩ := hc
  rw [afterEvent_eq]
  simp only [hne, if_false]
  have hnd : u16 "done" ≠ u16 "response" := by decide
  have hnt : u16 "thinking" ≠ u16 "response" := by decide
  by_cases hdone : typeIs payload (u16 "done") = true
  · obtain ⟨members, hm, hty⟩ := typeIs_obj payload _ hdone
    have hnr : typeIs payload (u16 "response") = false := by
      cases h : typeIs payload (u16 "response") with
      | false => rfl
      | true => exact absurd (typeIs_unique payload _ _ hdone h) hnd
    subst hm
    have h1 : (u16 "done" == u16 "done") = true := by decide
    simp [tryDispatch, catchWarn, hparse, JVal.getProp, hty, JVal.isStr, h1, responseContent,
      hnr, hs]
  · simp only [isStreamPayload, hdone, Bool.false_or, Bool.and_eq_true, Bool.or_eq_true,
      Bool.not_eq_true] at hp hdone
    obtain ⟨hty, hcs⟩ := hp
    obtain ⟨c, hcs⟩ := Option.isSome_iff_exists.mp hcs
    rcases hty with hth | hre
    · obtain ⟨members, hm, hty⟩ := typeIs_obj payload _ hth
      have hnr : typeIs payload (u16 "response") = false := by
        cases h : typeIs payload (u16 "response") with
        | false => rfl
        | true => exact absurd (typeIs_unique payload _ _ hth h) hnt
      subst hm
      have hct := contentStr_obj members c hcs
      have h1 : (u16 "thinking" == u16 "done") = false := by decide
      simp only [tryDispatch, hparse, JVal.getProp, hty, Option.getD_some, JVal.isStr, h1,
        Bool.false_eq_true, if_false]
      rw [handlePayload_thinking ops _ _ c hty hct]
      simp only [catchWarn, updateThinking, responseContent, hnr, Bool.false_eq_true,
        if_false, List.append_nil]
      split_ifs <;> simp [hs]
    · obtain ⟨members, hm, hty⟩ := typeIs_obj payload _ hre
      subst hm
      have hct := contentStr_obj members c hcs
      have h1 : (u16 "response" == u16 "done") = false := by decide
      simp only [tryDispatch, hparse, JVal.getProp, hty, Option.getD_some, JVal.isStr, h1,
        Bool.false_eq_true, if_false]
      rw [handlePayload_response ops { s with parsed := s.parsed ++ [payloadText f] } members r c
        hs hty hct]
      simp [catchWarn, responseContent, hre, hcs]

theorem afterEvents_stream (s : Sess N) (r : Str) (frames : List (Str × JVal N))
    (hs : s.responseText = .str r)
    (h : ∀ fp ∈ frames, Carries parse fp.1 fp.2 ∧ isStreamPayload fp.2 = true) :
    (afterEvents parse ops s (frames.map (fun fp => fp.1))).responseText
      = .str (r ++ responseContents (frames.map (fun fp => fp.2))) ∧
    (afterEvents parse ops s (frames.map (fun fp => fp.1))).bubbleError = s.bubbleError ∧
    (s.bubbleText = r →
      (afterEvents parse ops s (frames.map (fun fp => fp.1))).bubbleText
        = r ++ responseContents (frames.map (fun fp => fp.2))) := by
  induction frames generalizing s r with
  | nil => simp [afterEvents, responseContents, hs]
  | cons fp frames ih =>
    obtain ⟨hc, hp⟩ := h fp (by simp)
    obtain ⟨e1, e2, e3⟩ := afterEvent_stream parse ops s r fp.1 fp.2 hs hc hp
    obtain ⟨i1, i2, i3⟩ := ih (afterEvent parse ops s fp.1) (r ++ responseContent fp.2) e1
      (fun g hg => h g (by simp [hg]))
    simp only [List.map_cons, afterEvents_cons, responseContents]
    refine ⟨by rw [i1, List.append_assoc], by rw [i2, e2], fun hb => ?_⟩
    rw [i3 (e3 hb), List.append_assoc]

end Lemmas

theorem response_of_carried_frames (parse : Str → Option (JVal N)) (ops : NumOps N)
    (frames : List (Str × JVal N)) (chunks : List (List Nat))
    (hframes : ∀ fp ∈ frames,
      isFrameText fp.1 = true ∧ Carries parse fp.1 fp.2 ∧ isStreamPayload fp.2 = true)
    (hstream : (decode Utf8State.init (concat chunks)).2
      = streamText (frames.map (fun fp => fp.1))) :
    ∃ ls, readLoop parse ops (LoopState.init Sess.init) chunks = .ok ls ∧
      ls.sess.responseText = .str (responseContents (frames.map (fun fp => fp.2))) ∧
      ls.sess.bubbleText = responseContents (frames.map (fun fp => fp.2)) ∧
      ls.buffer = [] ∧
      readStream parse ops Sess.init chunks = .ok ls.sess := by
  have hft : ∀ f ∈ frames.map (fun fp => fp.1), isFrameText f = true := by
    intro f hf
    obtain ⟨fp, hfp, rfl⟩ := List.mem_map.mp hf
    exact (hframes fp hfp).1
  obtain ⟨hcf, hcarry⟩ := completeFrames_streamText _ hft
  obtain ⟨e1, _, e3⟩ := afterEvents_stream parse ops (Sess.init : Sess N) [] frames rfl
    (fun fp hfp => (hframes fp hfp).2)
  refine ⟨_, readLoop_eq parse ops _ chunks (by simp [LoopState.init, splitBlank]), ?_, ?_, ?_, ?_⟩
  · simp only [LoopState.init, List.nil_append, hstream, hcf]
    simpa using e1
  · simp only [LoopState.init, List.nil_append, hstream, hcf]
    simpa using e3 rfl
  · simp only [LoopState.init, List.nil_append, hstream, hcarry]
  · rw [readStream_eq]
    simp [LoopState.init]

/-- C2 (the code at the failing input): when the stream ends after the frame
`data: {"type":"response","content":"hi"}` without a blank line, the read loop leaves
that frame as the carry, the carry is not blank, and the end-of-stream call of
`processBuffer` dispatches nothing: `processBuffer` takes the last piece of its
argument as the remainder again, so the response stays empty and neither
`JSON.parse` nor `handlePayload` is called.  The same frame followed by a blank line
is dispatched and gives the response `hi`. -/
theorem final_frame_without_blank_line_dropped :
    ∃ (ls : LoopState Int) (s s' : Sess Int),
      readLoop (jsonParse intOps) intOps (LoopState.init Sess.init)
        [utf8 "data: \x7b\"type\":\"response\",\"content\":\"hi\"\x7d"] = .ok ls ∧
      ls.buffer = frameResponseHi ∧
      trim ls.buffer ≠ [] ∧
      flushCarry (jsonParse intOps) intOps ls = .ok s ∧
      readStream (jsonParse intOps) intOps Sess.init
        [utf8 "data: \x7b\"type\":\"response\",\"content\":\"hi\"\x7d"] = .ok s ∧
      s.responseText = .str [] ∧
      s.handled = [] ∧
      s.parsed = [] ∧
      readStream (jsonParse intOps) intOps Sess.init
        [utf8 "data: \x7b\"type\":\"response\",\"content\":\"hi\"\x7d\n\n"] = .ok s' ∧
      s'.responseText = .str (u16 "hi") ∧
      s'.handled = [payloadOf "response" "hi"] :=
  ⟨_, _, _, readLoop_eq _ _ _ _ rfl, by decide, by decide,
    flushCarry_eq _ _ _ (by decide), readStream_eq _ _ _ _, rfl, rfl, rfl,
    readStream_eq _ _ _ _, rfl, rfl⟩

/-- C4 (as stated, refuted): in the stream made of the frame
`data: {"type":"error","content":"boom"}` followed by a response frame with content
`x`, the response frame is still handled after the error and the response text at
the end of the stream is `boomx`, not `boom`. -/
theorem error_not_terminal_counterexample :
    ∃ s : Sess Int,
      readStream (jsonParse intOps) intOps Sess.init
        [utf8 "data: \x7b\"type\":\"error\",\"content\":\"boom\"\x7d\n\ndata: \x7b\"type\":\"response\",\"content\":\"x\"\x7d\n\n"]
        = .ok s ∧
      s.handled = [payloadOf "error" "boom", payloadOf "response" "x"] ∧
      s.responseText = .str (u16 "boomx") ∧
      s.responseText ≠ .str (u16 "boom") :=
  ⟨_, readStream_eq _ _ _ _, rfl, rfl, by
    intro h
    have h2 : (JVal.str (u16 "boomx") : JVal Int) = .str (u16 "boom") := h
    injection h2 with h3
    revert h3
    decide⟩

section Lemmas
variable (parse : Str → Option (JVal N)) (ops : NumOps N)

theorem afterEvent_error (s : Sess N) (f : Str) (members : List (Str × JVal N)) (c : Str)
    (hcar : Carries parse f (.obj members))
    (hty : JVal.lookup (u16 "type") members = some (.str (u16 "error")))
    (hct : JVal.lookup (u16 "content") members = some (.str c)) (hc : c ≠ []) :
    (afterEvent parse ops s f).responseText = .str c ∧
    (afterEvent parse ops s f).bubbleText = c ∧
    (afterEvent parse ops s f).bubbleError = true := by
  obtain ⟨hne, hparse⟩ := hcar
  rw [afterEvent_eq]
  have h1 : (u16 "error" == u16 "done") = false := by decide
  simp only [hne, if_false, tryDispatch, hparse, JVal.getProp, hty, Option.getD_some,
    JVal.isStr, h1, Bool.false_eq_true]
  rw [handlePayload_error ops _ _ c hty hct hc]
  simp [catchWarn]

end Lemmas

/-- C4 (amended): in a stream of frames whose frame `f` carries an error payload with
non-empty string content `c`, once that payload is handled the response text and
the bubble text are exactly `c` and the bubble is marked errored, whatever came
before.  The session is not terminal: when the frames after `f` carry payloads of
type `thinking`, `response` or `done`, they are still processed, the bubble stays
marked errored, and at the end of the stream the response text is `c` followed by
the contents of the later `response` payloads. -/
theorem error_payload_replaces_response (parse : Str → Option (JVal N)) (ops : NumOps N)
    (pre : List Str) (f : Str) (members : List (Str × JVal N)) (c : Str)
    (post : List (Str × JVal N)) (chunks : List (List Nat))
    (hpre : ∀ g ∈ pre, isFrameText g = true)
    (hf : isFrameText f = true ∧ Carries parse f (.obj members))
    (hty : JVal.lookup (u16 "type") members = some (.str (u16 "error")))
    (hct : JVal.lookup (u16 "content") members = some (.str c)) (hc : c ≠ [])
    (hpost : ∀ fp ∈ post,
      isFrameText fp.1 = true ∧ Carries parse fp.1 fp.2 ∧ isStreamPayload fp.2 = true)
    (hstream : (decode Utf8State.init (concat chunks)).2
      = streamText (pre ++ f :: post.map (fun fp => fp.1))) :
    ∃ before atError final,
      processEvents parse ops Sess.init pre = .ok before ∧
      processEvent parse ops before f = .ok atError ∧
      atError.responseText = .str c ∧
      atError.bubbleText = c ∧
      atError.bubbleError = true ∧
      readStream parse ops Sess.init chunks = .ok final ∧
      final.responseText = .str (c ++ responseContents (post.map (fun fp => fp.2))) ∧
      final.bubbleText = c ++ responseContents (post.map (fun fp => fp.2)) ∧
      final.bubbleError = true := by
  have hft : ∀ g ∈ pre ++ f :: post.map (fun fp => fp.1), isFrameText g = true := by
    intro g hg
    rcases List.mem_append.mp hg with hg | hg
    · exact hpre g hg
    · rcases List.mem_cons.mp hg with hg | hg
      · rw [hg]; exact hf.1
      · obtain ⟨fp, hfp, rfl⟩ := List.mem_map.mp hg
        exact (hpost fp hfp).1
  obtain ⟨hcf, _⟩ := completeFrames_streamText _ hft
  obtain ⟨e1, e2, e3⟩ := afterEvent_error parse ops (afterEvents parse ops Sess.init pre) f
    members c hf.2 hty hct hc
  obtain ⟨i1, i2, i3⟩ := afterEvents_stream parse ops _ c post e1
    (fun fp hfp => (hpost fp hfp).2)
  refine ⟨_, _, _, processEvents_eq_ok parse ops _ pre, processEvent_eq_ok parse ops _ f,
    e1, e2, e3, readStream_eq parse ops _ chunks, ?_, ?_, ?_⟩
  · rw [hstream, hcf, afterEvents_append, afterEvents_cons]; exact i1
  · rw [hstream, hcf, afterEvents_append, afterEvents_cons]; exact i3 e2
  · rw [hstream, hcf, afterEvents_append, afterEvents_cons, i2]; exact e3

/-- Witness of `error_payload_replaces_response`: the frame with the error `boom`
alone gives exactly `boom`; after a response frame and followed by a response frame
with content `x` it gives `boomx`. -/
theorem error_payload_replaces_response_witness :
    (∃ s : Sess Int,
      readStream (jsonParse intOps) intOps Sess.init
        [utf8 "data: \x7b\"type\":\"error\",\"content\":\"boom\"\x7d\n\n"] = .ok s ∧
      s.responseText = .str (u16 "boom") ∧ s.bubbleError = true) ∧
    (∃ s : Sess Int,
      readStream (jsonParse intOps) intOps Sess.init
        [utf8 "data: \x7b\"type\":\"response\",\"content\":\"a\"\x7d\n\ndata: \x7b\"type\":\"error\",\"content\":\"boom\"\x7d\n\ndata: \x7b\"type\":\"response\",\"content\":\"x\"\x7d\n\n"]
        = .ok s ∧
      s.responseText = .str (u16 "boomx") ∧ s.bubbleError = true) :=
  have h1 := error_payload_replaces_response (jsonParse intOps) intOps [] frameErrorBoom
    [(u16 "type", .str (u16 "error")), (u16 "content", .str (u16 "boom"))] (u16 "boom") []
    [utf8 "data: \x7b\"type\":\"error\",\"content\":\"boom\"\x7d\n\n"]
    (by simp) ⟨by decide, by decide, rfl⟩ rfl rfl (by decide) (by simp) (by decide)
  have h2 := error_payload_replaces_response (jsonParse intOps) intOps [frameResponseA]
    frameErrorBoom
    [(u16 "type", .str (u16 "error")), (u16 "content", .str (u16 "boom"))] (u16 "boom")
    [(frameResponseX, payloadOf "response" "x")]
    [utf8 "data: \x7b\"type\":\"response\",\"content\":\"a\"\x7d\n\ndata: \x7b\"type\":\"error\",\"content\":\"boom\"\x7d\n\ndata: \x7b\"type\":\"response\",\"content\":\"x\"\x7d\n\n"]
    (by decide) ⟨by decide, by decide, rfl⟩ rfl rfl (by decide)
    (by
      intro fp hfp
      simp only [List.mem_singleton] at hfp
      subst hfp
      exact ⟨by decide, ⟨by decide, rfl⟩, rfl⟩)
    (by decide)
  ⟨by
      obtain ⟨_, _, final, _, _, _, _, _, hr, ht, _, he⟩ := h1
      exact ⟨final, hr, ht, he⟩,
    by
      obtain ⟨_, _, final, _, _, _, _, _, hr, ht, _, he⟩ := h2
      exact ⟨final, hr, ht, he⟩⟩


section Lemmas

theorem splitNewline_noLF (x : Str) (h : 10 ∉ x) : splitNewline x = [x] := by
  induction x with
  | nil => rfl
  | cons c x ih =>
    have hc : c ≠ 10 := fun e => h (by simp [e])
    have hx : 10 ∉ x := fun e => h (by simp [e])
    simp [splitNewline, hc, ih hx, consHead]

theorem splitNewline_append_LF (x t : Str) (h : 10 ∉ x) :
    splitNewline (x ++ 10 :: t) = x :: splitNewline t := by
  induction x with
  | nil => simp [splitNewline]
  | cons c x ih =>
    have hc : c ≠ 10 := fun e => h (by simp [e])
    have hx : 10 ∉ x := fun e => h (by simp [e])
    simp [splitNewline, hc, ih hx, consHead]

theorem splitNewline_join (texts : List Str) (hne : texts ≠ [])
    (h : ∀ t ∈ texts, 10 ∉ t) : splitNewline (join [10] texts) = texts := by
  induction texts with
  | nil => exact absurd rfl hne
  | cons x texts ih =>
    cases texts with
    | nil => simpa [join] using splitNewline_noLF x (h x (by simp))
    | cons y rest =>
      have := ih (by simp) (fun t ht => h t (by simp [ht]))
      simp only [join, List.append_assoc, List.singleton_append]
      rw [splitNewline_append_LF x _ (h x (by simp)), this]

theorem startsWith_append (p x : Str) : startsWith (p ++ x) p = true := by
  induction p with
  | nil => cases x <;> rfl
  | cons c p ih => simp [startsWith, ih]

theorem dropWhile_pad (pad fragment : Str) (hp : pad.all isWhitespace = true)
    (hf : fragment.head?.map isWhitespace ≠ some true) :
    (pad ++ fragment).dropWhile isWhitespace = fragment := by
  induction pad with
  | nil =>
    cases fragment with
    | nil => rfl
    | cons c f =>
      have hc : isWhitespace c = false := by
        cases hcw : isWhitespace c with
        | false => rfl
        | true => simp [hcw] at hf
      simp [List.dropWhile, hc]
  | cons c pad ih =>
    simp only [List.all_cons, Bool.and_eq_true] at hp
    simp [List.dropWhile, hp.1, ih hp.2]

theorem text_noLF (l : FrameLine) (h : l.wellFormed = true) : 10 ∉ l.text ∧ l.text ≠ [] := by
  cases l with
  | data pad fragment =>
    simp only [FrameLine.wellFormed, Bool.and_eq_true, decide_eq_true_eq] at h
    obtain ⟨⟨⟨_, h2⟩, h3⟩, _⟩ := h
    have hd : (10 : Nat) ∉ u16 "data:" := by decide
    have hne : u16 "data:" ≠ [] := by decide
    constructor
    · simp only [FrameLine.text, List.mem_append, not_or]
      exact ⟨⟨hd, h2⟩, h3⟩
    · simp only [FrameLine.text, List.append_assoc]
      intro e
      exact hne (List.append_eq_nil.mp e).1
  | other text =>
    simp only [FrameLine.wellFormed, Bool.and_eq_true, decide_eq_true_eq] at h
    exact ⟨h.1.2, h.1.1⟩

theorem dataLines_frameText (lines : List FrameLine) (hne : lines ≠ [])
    (h : ∀ l ∈ lines, l.wellFormed = true) :
    (dataLines (frameText lines)).map (fun line => trimStart (line.drop 5))
      = lines.filterMap FrameLine.fragment? := by
  have hsplit : splitNewline (frameText lines) = lines.map FrameLine.text := by
    apply splitNewline_join
    · simpa using hne
    · intro t ht
      obtain ⟨l, hl, rfl⟩ := List.mem_map.mp ht
      exact (text_noLF l (h l hl)).1
  unfold dataLines
  rw [hsplit]
  clear hsplit hne
  induction lines with
  | nil => rfl
  | cons l lines ih =>
    have hl := h l (by simp)
    have ih' := ih (fun x hx => h x (by simp [hx]))
    cases l with
    | data pad fragment =>
      simp only [FrameLine.wellFormed, Bool.and_eq_true, decide_eq_true_eq] at hl
      obtain ⟨⟨⟨h1, _⟩, _⟩, h4⟩ := hl
      have hsw : startsWith (u16 "data:" ++ pad ++ fragment) (u16 "data:") = true := by
        rw [List.append_assoc]; exact startsWith_append _ _
      have hdrop : (u16 "data:" ++ pad ++ fragment).drop 5 = pad ++ fragment := by
        rw [List.append_assoc]
        exact List.drop_left' (by decide)
      have htrim : trimStart (pad ++ fragment) = fragment := dropWhile_pad pad fragment h1 h4
      simp only [List.map_cons, FrameLine.text, List.filter_cons, hsw, if_true,
        List.filterMap_cons, FrameLine.fragment?, ih', hdrop, htrim]
    | other text =>
      simp only [FrameLine.wellFormed, Bool.and_eq_true, decide_eq_true_eq,
        Bool.not_eq_true'] at hl
      simp only [List.map_cons, FrameLine.text, List.filter_cons, hl.2, Bool.false_eq_true,
        if_false, List.filterMap_cons, FrameLine.fragment?, ih']

theorem payloadText_frameText (lines : List FrameLine)
    (h : ∀ l ∈ lines, l.wellFormed = true) (hc : carriedText lines ≠ []) :
    payloadText (frameText lines) = carriedText lines := by
  have hne : lines ≠ [] := by
    intro e
    subst e
    exact hc rfl
  unfold payloadText dataTextOf carriedText
  rw [dataLines_frameText lines hne h]

theorem isFrameText_noLF (x : Str) (h : 10 ∉ x) : isFrameText x = true := by
  induction x with
  | nil => rfl
  | cons c x ih =>
    have hc : c ≠ 10 := fun e => h (by simp [e])
    have hx : 10 ∉ x := fun e => h (by simp [e])
    cases x with
    | nil => simp [isFrameText, hc]
    | cons d x => simp [isFrameText, hc, ih hx]

theorem isFrameText_append (x t : Str) (hx : 10 ∉ x) (hxne : x ≠ [])
    (ht : isFrameText t = true) (hhead : t.head? ≠ some 10) (htne : t ≠ []) :
    isFrameText (x ++ 10 :: t) = true := by
  induction x with
  | nil => exact absurd rfl hxne
  | cons c x ih =>
    have hc : c ≠ 10 := fun e => hx (by simp [e])
    have hx' : 10 ∉ x := fun e => hx (by simp [e])
    cases x with
    | nil =>
      cases t with
      | nil => exact absurd rfl htne
      | cons d t =>
        have hd : d ≠ 10 := fun e => hhead (by simp [e])
        simp [isFrameText, hc, hd]
        simpa [isFrameText] using ht
    | cons d x =>
      have := ih hx' (by simp)
      simp only [List.cons_append] at this ⊢
      simp [isFrameText, hc, this]

theorem isFrameText_join (texts : List Str)
    (h : ∀ t ∈ texts, 10 ∉ t ∧ t ≠ []) : isFrameText (join [10] texts) = true := by
  induction texts with
  | nil => rfl
  | cons x texts ih =>
    cases texts with
    | nil => simpa [join] using isFrameText_noLF x (h x (by simp)).1
    | cons y rest =>
      have hx := h x (by simp)
      have hy := h y (by simp)
      have := ih (fun t ht => h t (by simp [ht]))
      simp only [join, List.append_assoc, List.singleton_append]
      apply isFrameText_append x _ hx.1 hx.2 this
      · cases y with
        | nil => exact absurd rfl hy.2
        | cons c y =>
          have hc : c ≠ 10 := fun e => hy.1 (by simp [e])
          cases rest <;> simp [join, hc]
      · cases y with
        | nil => exact absurd rfl hy.2
        | cons c y => cases rest <;> simp [join]

theorem isFrameText_frameText (lines : List FrameLine)
    (h : ∀ l ∈ lines, l.wellFormed = true) : isFrameText (frameText lines) = true := by
  apply isFrameText_join
  intro t ht
  obtain ⟨l, hl, rfl⟩ := List.mem_map.mp ht
  exact text_noLF l (h l hl)

end Lemmas

/-- C1: for every stream text made of frames, each terminated by a blank line, whose
data lines (marker `data:`, whitespace, fragment), among any other lines, carry
fragments that joined by line feeds are a JSON text of a payload of type `thinking`
or `response` with string content, or `done`, and for every list of byte chunks
whose decoded text is that stream (wherever the cuts fall: inside a frame, inside
a delimiter, inside a multi-byte character), the read loop returns normally with
the response text, and the bubble text, equal to the concatenation in order of the
contents of the `response` payloads; the carry is then empty and the end-of-stream
step changes nothing. -/
theorem response_is_concatenation (parse : Str → Option (JVal N)) (ops : NumOps N)
    (frames : List (List FrameLine × JVal N)) (chunks : List (List Nat))
    (hframes : ∀ fp ∈ frames,
      (∀ l ∈ fp.1, l.wellFormed = true) ∧ carriedText fp.1 ≠ [] ∧
      parse (carriedText fp.1) = some fp.2 ∧ isStreamPayload fp.2 = true)
    (hstream : (decode Utf8State.init (concat chunks)).2
      = streamText (frames.map (fun fp => frameText fp.1))) :
    ∃ ls, readLoop parse ops (LoopState.init Sess.init) chunks = .ok ls ∧
      ls.sess.responseText = .str (responseContents (frames.map (fun fp => fp.2))) ∧
      ls.sess.bubbleText = responseContents (frames.map (fun fp => fp.2)) ∧
      ls.buffer = [] ∧
      readStream parse ops Sess.init chunks = .ok ls.sess := by
  have h := response_of_carried_frames parse ops
    (frames.map (fun fp => (frameText fp.1, fp.2))) chunks
    (by
      intro gp hgp
      obtain ⟨fp, hfp, rfl⟩ := List.mem_map.mp hgp
      obtain ⟨hw, hc, hp, hs⟩ := hframes fp hfp
      have ht := payloadText_frameText fp.1 hw hc
      exact ⟨isFrameText_frameText fp.1 hw, ⟨by rw [ht]; exact hc, by rw [ht]; exact hp⟩, hs⟩)
    (by simpa [List.map_map, Function.comp] using hstream)
  simpa [List.map_map, Function.comp] using h

/-- Witness of `response_is_concatenation`: a stream of three frames (a comment line
before a thinking payload; a response payload over two data lines, one indented,
around another field; `done` without a space after the marker), cut inside the two
bytes of `é` and between the line feeds of a delimiter; the response is `hé`. -/
theorem response_is_concatenation_witness :
    (decode Utf8State.init (concat sampleChunks)).2
      = streamText [frameText sampleFrameThinking, frameText sampleFrameResponse,
          frameText sampleFrameDone] ∧
    carriedText sampleFrameResponse
      = u16 "\x7b\"type\":\"response\",\n\"content\":\"hé\"\x7d" ∧
    ∃ ls : LoopState Int,
      readLoop (jsonParse intOps) intOps (LoopState.init Sess.init) sampleChunks = .ok ls ∧
      ls.sess.responseText = .str (u16 "hé") :=
  have h := response_is_concatenation (jsonParse intOps) intOps
    [(sampleFrameThinking, payloadOf "thinking" "hm"),
      (sampleFrameResponse, payloadOf "response" "hé"),
      (sampleFrameDone, .obj [(u16 "type", .str (u16 "done"))])]
    sampleChunks
    (by
      intro fp hfp
      simp only [List.mem_cons, List.mem_singleton, List.not_mem_nil, or_false] at hfp
      rcases hfp with rfl | rfl | rfl
      · exact ⟨by decide, by decide, rfl, rfl⟩
      · exact ⟨by decide, by decide, rfl, rfl⟩
      · exact ⟨by decide, by decide, rfl, rfl⟩)
    (by decide)
  ⟨by decide, by decide, h.choose, h.choose_spec.1, h.choose_spec.2.1⟩

end OllamaChat
